import Mathlib

/-!
Verification of the framing and session subsystem of the
`traffic_protocol` repository (GB/T 43229-2023 style wire format).

The definitions below are a shallow embedding of the C sources:
  * `src/common/protocol.c` (`escape_data`, `unescape_data`,
    `serialize_device_id`, `deserialize_device_id`, `encode_frame`,
    `decode_frame`, `create_data_table`, `create_error_frame`),
  * `src/server/signal_controller.c` (`extract_complete_frame`,
    the frame-drain loop of `handle_client_message`,
    the error path of `process_single_frame`,
    `check_heartbeat_timeout` and the heartbeat part of the main loop).

Machine integers are modelled as `Nat` (timestamps as `Int`), with the C
casts and masks written as explicit `% 256`, `% 65536`, division by 256,
and addition of disjoint byte fields.  Byte buffers are `List Nat`.
Fallible C functions returning `-1` are modelled with `Option`.
-/

set_option maxRecDepth 100000

namespace TrafficProtocol

/-! ## Protocol constants (protocol.h, signal_controller.h) -/

def FRAME_START : Nat := 0xC0
def FRAME_END : Nat := 0xC0
def ESCAPE_CHAR : Nat := 0xDB
def ESCAPE_START : Nat := 0xDC
def ESCAPE_ESCAPE : Nat := 0xDD
def MAX_FRAME_SIZE : Nat := 2048
def MAX_CONTENT_SIZE : Nat := 1500
def PROTOCOL_VERSION : Nat := 0x10

def OP_QUERY_REQUEST : Nat := 0x80
def OP_SET_REQUEST : Nat := 0x81
def OP_UPLOAD : Nat := 0x82
def OP_QUERY_RESPONSE : Nat := 0x83
def OP_SET_RESPONSE : Nat := 0x84
def OP_UPLOAD_RESPONSE : Nat := 0x85
def OP_ERROR_RESPONSE : Nat := 0x86

def OBJ_COMMUNICATION : Nat := 0x0101
def OBJ_DETECTOR_STATUS : Nat := 0x0205
def OBJ_TRAFFIC_REALTIME : Nat := 0x0301
def OBJ_TRAFFIC_STATS : Nat := 0x0302

def ERROR_FRAME_START : Nat := 1
def ERROR_FRAME_END : Nat := 2
def ERROR_CRC : Nat := 3
def ERROR_LINK_ADDR : Nat := 4
def ERROR_PROTOCOL_VERSION : Nat := 5

def MAX_CLIENTS : Nat := 64
def HEARTBEAT_INTERVAL : Int := 5
def HEARTBEAT_TIMEOUT : Int := 15

/-! ## CRC-16 engine -/

/-- Modelled from the spec: `crc16.c` is not under `src/` (only its header
`crc16.h` and its callers are present).  One shift-and-conditional-xor round
of the reflected CRC-16: shift right one bit and, if the dropped bit was
set, xor in the reflected polynomial `0xA001`. -/
def crc16_round (crc : Nat) : Nat :=
  if crc % 2 = 1 then (crc / 2) ^^^ 0xA001 else crc / 2

/-- Modelled from the spec: fold one input byte into the CRC register —
xor the byte into the low eight bits, then run eight shift rounds
(bytes are processed least-significant-bit first). -/
def crc16_byte (crc b : Nat) : Nat :=
  crc16_round (crc16_round (crc16_round (crc16_round
    (crc16_round (crc16_round (crc16_round (crc16_round (crc ^^^ (b % 256)))))))))

/-- Modelled from the spec: `calculate_crc16` — CRC-16 with initial value
`0xFFFF`, reflected polynomial `0xA001` (reflected `0x8005`), no final xor.
The C file uses an equivalent 256-entry table; the spec's known test vector
`01 04 02 FF FF ↦ 0x80B8` pins the algorithm down. -/
def calculate_crc16 (data : List Nat) : Nat :=
  data.foldl crc16_byte 0xFFFF

example : calculate_crc16 [0x01, 0x04, 0x02, 0xFF, 0xFF] = 0x80B8 := by decide

/-! ## Escape codec (protocol.c: escape_data / unescape_data) -/

/-- Body of the `escape_data` loop.  `pos` is the C `output_pos` (number of
output bytes already emitted), `size` the caller-supplied `output_size`.
Each input byte first requires `output_pos < output_size - 1`; the delimiter
`0xC0` becomes `0xDB 0xDC`, the escape byte `0xDB` becomes `0xDB 0xDD`
(each with the C's second bounds check before the pair's second byte),
any other byte is copied. -/
def escapeLoop : List Nat → Nat → Nat → Option (List Nat)
  | [], _, _ => some []
  | b :: rest, pos, size =>
    if pos ≥ size - 1 then none
    else if b = FRAME_START then
      if pos + 1 ≥ size then none
      else (escapeLoop rest (pos + 2) size).map (fun t => ESCAPE_CHAR :: ESCAPE_START :: t)
    else if b = ESCAPE_CHAR then
      if pos + 1 ≥ size then none
      else (escapeLoop rest (pos + 2) size).map (fun t => ESCAPE_CHAR :: ESCAPE_ESCAPE :: t)
    else (escapeLoop rest (pos + 1) size).map (fun t => b :: t)

/-- C `escape_data`: fails on empty input (the C returns `-1` for
`input_len == 0`), otherwise runs the escaping loop from `output_pos = 0`. -/
def escape_data (input : List Nat) (output_size : Nat) : Option (List Nat) :=
  if input = [] then none else escapeLoop input 0 output_size

/-- Body of the `unescape_data` loop.  A `0xDB` that still has a successor
byte consumes the pair: `0xDC ↦ 0xC0`, `0xDD ↦ 0xDB`, anything else is an
invalid escape (`-1`).  A `0xDB` with no successor falls into the plain-copy
branch of the C (`input[i] == ESCAPE_CHAR && i + 1 < input_len` is false)
and is copied through unchanged.  Before each output byte the C checks
`output_pos >= output_size`. -/
def unescapeLoop : List Nat → Nat → Nat → Option (List Nat)
  | [], _, _ => some []
  | b :: rest, pos, size =>
    if pos ≥ size then none
    else if b = ESCAPE_CHAR ∧ rest ≠ [] then
      match rest with
      | [] => none
      | b2 :: rest2 =>
        if b2 = ESCAPE_START then
          (unescapeLoop rest2 (pos + 1) size).map (fun t => FRAME_START :: t)
        else if b2 = ESCAPE_ESCAPE then
          (unescapeLoop rest2 (pos + 1) size).map (fun t => ESCAPE_CHAR :: t)
        else none
    else (unescapeLoop rest (pos + 1) size).map (fun t => b :: t)

/-- C `unescape_data`: fails on empty input, otherwise runs the loop from
`output_pos = 0`. -/
def unescape_data (input : List Nat) (output_size : Nat) : Option (List Nat) :=
  if input = [] then none else unescapeLoop input 0 output_size

/-- Size-free unescaping, used only to state properties about "the
unescaped form" of an interior: since unescaping never produces more
bytes than it consumes, a budget of `input.length` never interferes. -/
def unescape_full (input : List Nat) : Option (List Nat) :=
  unescapeLoop input 0 input.length

/-! ## Data model (protocol.h) -/

/-- C `device_id_t`: `admin_code` is a `uint32_t` holding 24 significant
bits, `device_type` and `device_id` are `uint16_t`. -/
structure device_id_t where
  admin_code : Nat
  device_type : Nat
  device_id : Nat
deriving DecidableEq, Repr

/-- C `data_table_t`.  The C pairs a `uint16_t content_len` with a content
pointer; here the pointed-to bytes are the list `content`. -/
structure data_table_t where
  link_addr : Nat
  sender : device_id_t
  receiver : device_id_t
  protocol_ver : Nat
  operation : Nat
  object_id : Nat
  content_len : Nat
  content : List Nat
deriving DecidableEq, Repr

/-- C `protocol_frame_t`. -/
structure protocol_frame_t where
  frame_start : Nat
  data : data_table_t
  crc : Nat
  frame_end : Nat
deriving DecidableEq, Repr

/-- C `protocol_result_t`. -/
inductive protocol_result_t where
  | success
  | invalid_param
  | buffer_small
  | crc_error
  | format
  | escape_invalid
  | incomplete
deriving DecidableEq, Repr

def zero_device : device_id_t := ⟨0, 0, 0⟩

def empty_table : data_table_t :=
  ⟨0, zero_device, zero_device, 0, 0, 0, 0, []⟩

/-- Stand-in for the caller's uninitialized `protocol_frame_t` local that C
code passes by pointer into `decode_frame`. -/
def empty_frame : protocol_frame_t := ⟨0, empty_table, 0, 0⟩

/-! ## Device-id and data-table serialization (protocol.c) -/

/-- C `serialize_device_id`: 3 bytes of `admin_code`, 2 of `device_type`,
2 of `device_id`, all little-endian (the C `& 0xFF` / `>> 8` / `>> 16`
masks and shifts written as `% 256` and division). -/
def serialize_device_id (d : device_id_t) : List Nat :=
  [d.admin_code % 256, d.admin_code / 256 % 256, d.admin_code / 65536 % 256,
   d.device_type % 256, d.device_type / 256 % 256,
   d.device_id % 256, d.device_id / 256 % 256]

/-- C `deserialize_device_id`: the C ors together disjoint shifted byte
fields (`b0 | b1 << 8 | b2 << 16`), written here as the equal sum of the
scaled bytes. -/
def deserialize_device_id (buf : List Nat) : device_id_t :=
  { admin_code := buf.getD 0 0 + 256 * buf.getD 1 0 + 65536 * buf.getD 2 0
    device_type := buf.getD 3 0 + 256 * buf.getD 4 0
    device_id := buf.getD 5 0 + 256 * buf.getD 6 0 }

/-- First stage of C `encode_frame`: the 20 header bytes written into
`data_table[]` — link address (2), sender (7), receiver (7), protocol
version (1), operation (1), object id (2, little-endian).  Stores into the
`uint8_t` array truncate mod 256. -/
def serialize_header (d : data_table_t) : List Nat :=
  [d.link_addr % 256, d.link_addr / 256 % 256] ++
  serialize_device_id d.sender ++
  serialize_device_id d.receiver ++
  [d.protocol_ver % 256, d.operation % 256, d.object_id % 256, d.object_id / 256 % 256]

/-- Second stage of C `encode_frame`: append the content (only when the
content pointer is non-null and `content_len > 0`, and only if
`data_table_len + content_len` fits the 2048-byte `data_table[]`). -/
def build_data_table (d : data_table_t) : Option (List Nat) :=
  if d.content ≠ [] ∧ d.content_len > 0 then
    if 20 + d.content_len > MAX_FRAME_SIZE then none
    else some (serialize_header d ++ d.content.take d.content_len)
  else some (serialize_header d)

/-- C `encode_frame`.  Builds the unescaped data table, appends the CRC
(low byte then high byte), escapes it into the fixed `MAX_FRAME_SIZE`
internal buffer, and wraps the result in the two `0xC0` delimiters after
checking the caller's `buffer_size` (the C checks
`frame_len + escaped_len >= buffer_size` before the copy and the equal
`frame_len >= buffer_size` again before the final delimiter). -/
def encode_frame (frame : protocol_frame_t) (buffer_size : Nat) : Option (List Nat) :=
  if buffer_size < 20 then none
  else
    match build_data_table frame.data with
    | none => none
    | some dt =>
      let crc := calculate_crc16 dt
      let dt2 := dt ++ [crc % 256, crc / 256 % 256]
      match escape_data dt2 MAX_FRAME_SIZE with
      | none => none
      | some esc =>
        if 1 + esc.length ≥ buffer_size then none
        else some (FRAME_START :: esc ++ [FRAME_END])

/-- C `decode_frame`.  The result pairs the `protocol_result_t` with the
caller's frame: the C writes through the `frame` pointer only on the
success path (every error return leaves the caller's struct untouched),
and on success it assigns every field.  Indexing `buffer[i]` is `getD`.
`content_len` is the C `int` expression `(unescaped_len - 2) - pos`
(with `pos = 20`) stored into a `uint16_t`, i.e. reduced mod `2^16`. -/
def decode_frame (buffer : List Nat) (frame : protocol_frame_t) :
    protocol_result_t × protocol_frame_t :=
  if buffer.length < 4 then (.invalid_param, frame)
  else if ¬ (buffer.getD 0 0 = FRAME_START ∧ buffer.getD (buffer.length - 1) 0 = FRAME_END) then
    (.format, frame)
  else
    match unescape_data ((buffer.drop 1).dropLast) MAX_FRAME_SIZE with
    | none => (.escape_invalid, frame)
    | some u =>
      if u.length < 20 then (.incomplete, frame)
      else
        let received_crc := u.getD (u.length - 2) 0 + 256 * u.getD (u.length - 1) 0
        let calculated_crc := calculate_crc16 (u.take (u.length - 2))
        if received_crc ≠ calculated_crc then (.crc_error, frame)
        else
          let clen := ((((u.length : Int) - 22) % 65536)).toNat
          (.success,
            { frame_start := FRAME_START
              frame_end := FRAME_END
              crc := received_crc
              data :=
                { link_addr := u.getD 0 0 + 256 * u.getD 1 0
                  sender := deserialize_device_id (u.drop 2)
                  receiver := deserialize_device_id (u.drop 9)
                  protocol_ver := u.getD 16 0
                  operation := u.getD 17 0
                  object_id := u.getD 18 0 + 256 * u.getD 19 0
                  content_len := clen
                  content := (u.drop 20).take clen } })

/-- C `create_data_table`: fixed `link_addr = 0` and protocol version, a
malloc'd copy of `content_len` bytes of content when the pointer is
non-null and the length positive, a null content otherwise. -/
def create_data_table (sender receiver : device_id_t) (operation object_id : Nat)
    (content : List Nat) (content_len : Nat) : data_table_t :=
  { link_addr := 0
    sender := sender
    receiver := receiver
    protocol_ver := PROTOCOL_VERSION
    operation := operation
    object_id := object_id
    content_len := content_len
    content := if content ≠ [] ∧ content_len > 0 then content.take content_len else [] }

/-- C `create_error_frame`: an `ERROR_RESP` on object `0x0000` whose
one-byte content is the error code.  The C leaves the `crc` field of the
local struct uninitialized (it is never read before `encode_frame`
recomputes it); the model fixes it at 0. -/
def create_error_frame (sender receiver : device_id_t) (error_type : Nat) :
    protocol_frame_t :=
  { frame_start := FRAME_START
    frame_end := FRAME_END
    crc := 0
    data := create_data_table sender receiver OP_ERROR_RESPONSE 0x0000 [error_type % 256] 1 }

/-! ## Codec lemmas -/

/-- Soundness facts about a successful `escapeLoop` run: the output is at
least as long as the input, it stays within the supplied capacity (for
nonempty input), it contains no raw delimiter byte, and it never ends with
a lone escape byte. -/
theorem escapeLoop_sound (input : List Nat) : ∀ (pos size : Nat) (out : List Nat),
    escapeLoop input pos size = some out →
    input.length ≤ out.length ∧ (input ≠ [] → pos + out.length ≤ size) ∧
    FRAME_START ∉ out ∧ out.getLast? ≠ some ESCAPE_CHAR := by
  induction input with
  | nil =>
    intro pos size out h
    simp [escapeLoop] at h
    subst h
    simp [FRAME_START, ESCAPE_CHAR]
  | cons b rest ih =>
    intro pos size out h
    simp only [escapeLoop] at h
    by_cases hpos : pos ≥ size - 1
    · simp [hpos] at h
    · rw [if_neg hpos] at h
      by_cases hb0 : b = FRAME_START
      · rw [if_pos hb0] at h
        by_cases hpos2 : pos + 1 ≥ size
        · simp [hpos2] at h
        · rw [if_neg hpos2] at h
          obtain ⟨out', hout', rfl⟩ := Option.map_eq_some'.mp h
          obtain ⟨hlen, hcap, hmem, hlast⟩ := ih (pos + 2) size out' hout'
          refine ⟨by simp; omega, ?_, ?_, ?_⟩
          · intro _
            rcases rest with _ | ⟨r, rs⟩
            · simp [escapeLoop] at hout'
              subst hout'
              simp
              omega
            · have := hcap (by simp)
              simp at this ⊢
              omega
          · simp [ESCAPE_CHAR, ESCAPE_START, FRAME_START] at hmem ⊢
            exact hmem
          · rcases out' with _ | ⟨x, xs⟩
            · simp [ESCAPE_START, ESCAPE_CHAR]
            · simpa [List.getLast?_cons_cons] using hlast
      · rw [if_neg hb0] at h
        by_cases hb1 : b = ESCAPE_CHAR
        · rw [if_pos hb1] at h
          by_cases hpos2 : pos + 1 ≥ size
          · simp [hpos2] at h
          · rw [if_neg hpos2] at h
            obtain ⟨out', hout', rfl⟩ := Option.map_eq_some'.mp h
            obtain ⟨hlen, hcap, hmem, hlast⟩ := ih (pos + 2) size out' hout'
            refine ⟨by simp; omega, ?_, ?_, ?_⟩
            · intro _
              rcases rest with _ | ⟨r, rs⟩
              · simp [escapeLoop] at hout'
                subst hout'
                simp
                omega
              · have := hcap (by simp)
                simp at this ⊢
                omega
            · simp [ESCAPE_CHAR, ESCAPE_ESCAPE, FRAME_START] at hmem ⊢
              exact hmem
            · rcases out' with _ | ⟨x, xs⟩
              · simp [ESCAPE_ESCAPE, ESCAPE_CHAR]
              · simpa [List.getLast?_cons_cons] using hlast
        · rw [if_neg hb1] at h
          obtain ⟨out', hout', rfl⟩ := Option.map_eq_some'.mp h
          obtain ⟨hlen, hcap, hmem, hlast⟩ := ih (pos + 1) size out' hout'
          refine ⟨by simp; omega, ?_, ?_, ?_⟩
          · intro _
            rcases rest with _ | ⟨r, rs⟩
            · simp [escapeLoop] at hout'
              subst hout'
              simp
              omega
            · have := hcap (by simp)
              simp at this ⊢
              omega
          · simp only [List.mem_cons, not_or]
            exact ⟨fun hc => hb0 hc.symm, hmem⟩
          · rcases out' with _ | ⟨x, xs⟩
            · simp only [List.getLast?_singleton]
              exact fun hc => hb1 (Option.some.inj hc)
            · simpa [List.getLast?_cons_cons] using hlast

/-- Unescaping inverts escaping: a successful `escapeLoop` output is
decoded back to the original input by `unescapeLoop`, for any unescape
capacity large enough to hold that input. -/
theorem unescapeLoop_escapeLoop (input : List Nat) :
    ∀ (pos size : Nat) (out : List Nat) (p s : Nat),
    escapeLoop input pos size = some out → p + input.length ≤ s →
    unescapeLoop out p s = some input := by
  induction input with
  | nil =>
    intro pos size out p s h _
    simp [escapeLoop] at h
    subst h
    simp [unescapeLoop]
  | cons b rest ih =>
    intro pos size out p s h hs
    simp only [escapeLoop] at h
    by_cases hpos : pos ≥ size - 1
    · simp [hpos] at h
    · rw [if_neg hpos] at h
      by_cases hb0 : b = FRAME_START
      · rw [if_pos hb0] at h
        by_cases hpos2 : pos + 1 ≥ size
        · simp [hpos2] at h
        · rw [if_neg hpos2] at h
          obtain ⟨out', hout', rfl⟩ := Option.map_eq_some'.mp h
          have hrec := ih (pos + 2) size out' (p + 1) s hout' (by simp at hs ⊢; omega)
          simp only [unescapeLoop]
          rw [if_neg (by simp at hs; omega)]
          rw [if_pos (by simp [ESCAPE_CHAR, ESCAPE_START])]
          simp [hrec, hb0]
      · rw [if_neg hb0] at h
        by_cases hb1 : b = ESCAPE_CHAR
        · rw [if_pos hb1] at h
          by_cases hpos2 : pos + 1 ≥ size
          · simp [hpos2] at h
          · rw [if_neg hpos2] at h
            obtain ⟨out', hout', rfl⟩ := Option.map_eq_some'.mp h
            have hrec := ih (pos + 2) size out' (p + 1) s hout' (by simp at hs ⊢; omega)
            simp only [unescapeLoop]
            rw [if_neg (by simp at hs; omega)]
            rw [if_pos (by simp [ESCAPE_CHAR, ESCAPE_ESCAPE])]
            simp [hrec, hb1, ESCAPE_ESCAPE, ESCAPE_START, ESCAPE_CHAR]
        · rw [if_neg hb1] at h
          obtain ⟨out', hout', rfl⟩ := Option.map_eq_some'.mp h
          have hrec := ih (pos + 1) size out' (p + 1) s hout' (by simp at hs ⊢; omega)
          have hps : ¬ p ≥ s := by simp at hs; omega
          rcases out' with _ | ⟨y, ys⟩
          · simp [unescapeLoop] at hrec
            subst hrec
            simp [unescapeLoop, hps, hb1]
          · simp only [unescapeLoop]
            rw [if_neg hps]
            rw [if_neg (by simp [hb1])]
            simp [hrec]

/-- Helper for `unescapeLoop_bound_fail`, with an explicit length fuel to
allow recursion two list elements at a time. -/
theorem unescapeLoop_bound_fail_aux : ∀ (n : Nat) (input : List Nat), input.length ≤ n →
    ∀ (pos big : Nat) (u : List Nat) (size : Nat),
    unescapeLoop input pos big = some u → size < pos + u.length → input ≠ [] →
    unescapeLoop input pos size = none := by
  intro n
  induction n with
  | zero =>
    intro input hlen pos big u size h hlt hne
    have : input = [] := List.length_eq_zero.mp (Nat.le_zero.mp hlen)
    exact absurd this hne
  | succ n ihn =>
    intro input hlen pos big u size h hlt hne
    rcases input with _ | ⟨b, rest⟩
    · exact absurd rfl hne
    · by_cases hposb : pos ≥ big
      · rcases rest with _ | ⟨b2, rest2⟩ <;> simp [unescapeLoop, hposb] at h
      · by_cases hpos : pos ≥ size
        · rcases rest with _ | ⟨b2, rest2⟩ <;> simp [unescapeLoop, hpos]
        · rcases rest with _ | ⟨b2, rest2⟩
          · simp [unescapeLoop, hposb] at h
            subst h
            simp at hlt
            omega
          · simp only [unescapeLoop] at h ⊢
            rw [if_neg hposb] at h
            rw [if_neg hpos]
            by_cases hb : b = ESCAPE_CHAR ∧ b2 :: rest2 ≠ []
            · rw [if_pos hb] at h ⊢
              by_cases hb2 : b2 = ESCAPE_START
              · rw [if_pos hb2] at h ⊢
                obtain ⟨u2, hu2, rfl⟩ := Option.map_eq_some'.mp h
                rcases rest2 with _ | ⟨c, cs⟩
                · simp [unescapeLoop] at hu2
                  subst hu2
                  simp at hlt
                  omega
                · rw [ihn (c :: cs) (by simp at hlen ⊢; omega) (pos + 1) big u2 size hu2
                      (by simp at hlt ⊢; omega) (by simp)]
                  rfl
              · rw [if_neg hb2] at h ⊢
                by_cases hb3 : b2 = ESCAPE_ESCAPE
                · rw [if_pos hb3] at h ⊢
                  obtain ⟨u2, hu2, rfl⟩ := Option.map_eq_some'.mp h
                  rcases rest2 with _ | ⟨c, cs⟩
                  · simp [unescapeLoop] at hu2
                    subst hu2
                    simp at hlt
                    omega
                  · rw [ihn (c :: cs) (by simp at hlen ⊢; omega) (pos + 1) big u2 size hu2
                        (by simp at hlt ⊢; omega) (by simp)]
                    rfl
                · rw [if_neg hb3]
            · rw [if_neg hb] at h ⊢
              obtain ⟨u2, hu2, rfl⟩ := Option.map_eq_some'.mp h
              rw [ihn (b2 :: rest2) (by simp at hlen ⊢; omega) (pos + 1) big u2 size hu2
                  (by simp at hlt ⊢; omega) (by simp)]
              rfl

/-- A successful unbounded unescape whose output overflows a smaller
capacity makes the capacity-bounded unescape fail. -/
theorem unescapeLoop_bound_fail (input : List Nat) (pos big : Nat) (u : List Nat) (size : Nat)
    (h : unescapeLoop input pos big = some u) (hlt : size < pos + u.length)
    (hne : input ≠ []) : unescapeLoop input pos size = none :=
  unescapeLoop_bound_fail_aux input.length input le_rfl pos big u size h hlt hne

/-! ## CRC bounds -/

theorem crc16_round_lt {c : Nat} (h : c < 65536) : crc16_round c < 65536 := by
  unfold crc16_round
  split
  · have h1 : c / 2 < 2 ^ 16 := by omega
    have h2 : (0xA001 : Nat) < 2 ^ 16 := by norm_num
    calc c / 2 ^^^ 0xA001 < 2 ^ 16 := Nat.xor_lt_two_pow h1 h2
      _ = 65536 := by norm_num
  · omega

theorem crc16_byte_lt {c : Nat} (b : Nat) (h : c < 65536) : crc16_byte c b < 65536 := by
  unfold crc16_byte
  have h0 : c ^^^ b % 256 < 65536 := by
    have h1 : c < 2 ^ 16 := h
    have h2 : b % 256 < 2 ^ 16 := by
      have hx : b % 256 < 256 := Nat.mod_lt b (by omega)
      omega
    calc c ^^^ b % 256 < 2 ^ 16 := Nat.xor_lt_two_pow h1 h2
      _ = 65536 := by norm_num
  exact crc16_round_lt (crc16_round_lt (crc16_round_lt (crc16_round_lt
    (crc16_round_lt (crc16_round_lt (crc16_round_lt (crc16_round_lt h0)))))))

theorem calculate_crc16_lt (data : List Nat) : calculate_crc16 data < 65536 := by
  unfold calculate_crc16
  suffices h : ∀ (init : Nat), init < 65536 → data.foldl crc16_byte init < 65536 by
    exact h 0xFFFF (by norm_num)
  induction data with
  | nil => intro init h; simp only [List.foldl_nil]; exact h
  | cons b rest ih =>
    intro init h
    simpa using ih (crc16_byte init b) (crc16_byte_lt b h)

/-! ## Facts about the serialization stages -/

theorem serialize_header_length (d : data_table_t) : (serialize_header d).length = 20 := by
  simp [serialize_header, serialize_device_id]

/-- Validity of a data table as the C structs can actually hold it:
all fields within the widths of their C types (24-bit admin code),
`content_len` agreeing with the owned buffer, content made of bytes.
The protocol's `MAX_CONTENT_SIZE` bound is stated separately where a
claim requires it, since `decode_frame` never checks it. -/
def ValidTable (d : data_table_t) : Prop :=
  d.link_addr < 65536 ∧
  d.sender.admin_code < 16777216 ∧ d.sender.device_type < 65536 ∧ d.sender.device_id < 65536 ∧
  d.receiver.admin_code < 16777216 ∧ d.receiver.device_type < 65536 ∧ d.receiver.device_id < 65536 ∧
  d.protocol_ver < 256 ∧ d.operation < 256 ∧ d.object_id < 65536 ∧
  d.content_len = d.content.length ∧
  ∀ b ∈ d.content, b < 256

instance (d : data_table_t) : Decidable (ValidTable d) := by
  unfold ValidTable
  infer_instance

theorem build_data_table_some {d : data_table_t} {dt : List Nat}
    (hlen : d.content_len = d.content.length)
    (h : build_data_table d = some dt) :
    dt = serialize_header d ++ d.content ∧ d.content.length ≤ 2028 := by
  unfold build_data_table at h
  by_cases hc : d.content ≠ [] ∧ d.content_len > 0
  · rw [if_pos hc] at h
    by_cases hsz : 20 + d.content_len > MAX_FRAME_SIZE
    · rw [if_pos hsz] at h
      cases h
    · rw [if_neg hsz] at h
      have hdt : dt = serialize_header d ++ d.content.take d.content_len := by
        cases h
        rfl
      constructor
      · rw [hdt, hlen, List.take_length]
      · simp [MAX_FRAME_SIZE] at hsz
        omega
  · rw [if_neg hc] at h
    have hdt : dt = serialize_header d := by cases h; rfl
    have hcontent : d.content = [] := by
      by_cases he : d.content = []
      · exact he
      · have : ¬ d.content_len > 0 := fun hp => hc ⟨he, hp⟩
        have : d.content.length = 0 := by omega
        exact List.length_eq_zero.mp this
    constructor
    · rw [hdt, hcontent, List.append_nil]
    · rw [hcontent]
      simp

theorem getD_cons_append_last (a : Nat) (l : List Nat) (b : Nat) :
    (a :: l ++ [b]).getD (l.length + 1) 0 = b := by
  have h : (a :: l ++ [b])[l.length + 1]? = some b := by
    rw [show l.length + 1 = (a :: l).length from by simp,
        List.getElem?_concat_length]
  simp [List.getD, h]

/-- Evaluation of `decode_frame` on an input already of delimited shape
`0xC0 :: interior ++ [0xC0]`: the parameter checks and delimiter checks
pass and the result is governed by the unescaping of the interior. -/
theorem decode_frame_shape (esc : List Nat) (g : protocol_frame_t) (hlen : 2 ≤ esc.length) :
    decode_frame (FRAME_START :: esc ++ [FRAME_END]) g =
      match unescape_data esc MAX_FRAME_SIZE with
      | none => (.escape_invalid, g)
      | some u =>
        if u.length < 20 then (.incomplete, g)
        else
          let received_crc := u.getD (u.length - 2) 0 + 256 * u.getD (u.length - 1) 0
          let calculated_crc := calculate_crc16 (u.take (u.length - 2))
          if received_crc ≠ calculated_crc then (.crc_error, g)
          else
            let clen := ((((u.length : Int) - 22) % 65536)).toNat
            (.success,
              { frame_start := FRAME_START
                frame_end := FRAME_END
                crc := received_crc
                data :=
                  { link_addr := u.getD 0 0 + 256 * u.getD 1 0
                    sender := deserialize_device_id (u.drop 2)
                    receiver := deserialize_device_id (u.drop 9)
                    protocol_ver := u.getD 16 0
                    operation := u.getD 17 0
                    object_id := u.getD 18 0 + 256 * u.getD 19 0
                    content_len := clen
                    content := (u.drop 20).take clen } }) := by
  have hlen4 : ¬ (FRAME_START :: esc ++ [FRAME_END]).length < 4 := by
    simp
    omega
  have hd0 : (FRAME_START :: esc ++ [FRAME_END]).getD 0 0 = FRAME_START := rfl
  have hdl : (FRAME_START :: esc ++ [FRAME_END]).getD
      ((FRAME_START :: esc ++ [FRAME_END]).length - 1) 0 = FRAME_END := by
    have : (FRAME_START :: esc ++ [FRAME_END]).length - 1 = esc.length + 1 := by
      simp
    rw [this]
    exact getD_cons_append_last _ _ _
  have hinterior : (((FRAME_START :: esc ++ [FRAME_END]).drop 1).dropLast) = esc := by
    simp
  unfold decode_frame
  rw [if_neg hlen4, if_neg (by push_neg; exact ⟨hd0, hdl⟩), hinterior]

theorem getD_append_pair_fst (l : List Nat) (x y : Nat) :
    (l ++ [x, y]).getD l.length 0 = x := by
  have h : (l ++ [x, y])[l.length]? = some x := by
    rw [List.getElem?_append_right (le_refl l.length)]
    simp
  simp [List.getD, h]

theorem getD_append_pair_snd (l : List Nat) (x y : Nat) :
    (l ++ [x, y]).getD (l.length + 1) 0 = y := by
  have h : (l ++ [x, y])[l.length + 1]? = some y := by
    rw [List.getElem?_append_right (by omega)]
    simp
  simp [List.getD, h]

/-- Core round-trip lemma shared by the codec claims: whenever
`encode_frame` succeeds on a valid data table, `decode_frame` on its
output succeeds — whatever the prior contents `g` of the caller's frame —
and reproduces the data table exactly (and the frame fields are the two
delimiters and the CRC over header plus content). -/
theorem decode_encode_frame (f : protocol_frame_t) (cap : Nat) (bs : List Nat)
    (g : protocol_frame_t) (hv : ValidTable f.data)
    (h : encode_frame f cap = some bs) :
    decode_frame bs g =
      (.success,
        { frame_start := FRAME_START
          frame_end := FRAME_END
          crc := calculate_crc16 (serialize_header f.data ++ f.data.content)
          data := f.data }) := by
  obtain ⟨fs, fd, fcrc, fe⟩ := f
  obtain ⟨la, s, r, pv, opv, oid, cl, co⟩ := fd
  obtain ⟨sa, st, si⟩ := s
  obtain ⟨ra, rt, ri⟩ := r
  simp only [ValidTable] at hv
  obtain ⟨hv1, hv2, hv3, hv4, hv5, hv6, hv7, hv8, hv9, hv10, hv11, hv13⟩ := hv
  set fd : data_table_t := ⟨la, ⟨sa, st, si⟩, ⟨ra, rt, ri⟩, pv, opv, oid, cl, co⟩ with hfd
  have hcap : ¬ cap < 20 := by
    intro hc
    simp [encode_frame, hc] at h
  obtain ⟨dt, hbd⟩ : ∃ dt, build_data_table fd = some dt := by
    cases hb2 : build_data_table fd with
    | none => simp [encode_frame, hb2, hcap] at h
    | some dt => exact ⟨dt, rfl⟩
  obtain ⟨hdt_eq, hclen⟩ := build_data_table_some hv11 hbd
  subst hdt_eq
  simp only [encode_frame, hbd, hcap, if_false] at h
  set crcv := calculate_crc16 (serialize_header fd ++ fd.content) with hcrcv
  set dt2 := (serialize_header fd ++ fd.content) ++ [crcv % 256, crcv / 256 % 256]
    with hdt2
  obtain ⟨esc, hesc⟩ : ∃ esc, escape_data dt2 MAX_FRAME_SIZE = some esc := by
    cases he2 : escape_data dt2 MAX_FRAME_SIZE with
    | none => rw [he2] at h; cases h
    | some esc => exact ⟨esc, rfl⟩
  simp only [hesc] at h
  have hbs : bs = FRAME_START :: esc ++ [FRAME_END] := by
    by_cases hover : 1 + esc.length ≥ cap
    · rw [if_pos hover] at h; cases h
    · rw [if_neg hover] at h; cases h; rfl
  have hdtlen : (serialize_header fd ++ fd.content).length = 20 + co.length := by
    simp [serialize_header_length, hfd]
  have hdt2len : dt2.length = 22 + co.length := by
    rw [hdt2]
    simp only [List.length_append, serialize_header_length, List.length_cons,
      List.length_nil, hfd]
    omega
  have hdt2ne : dt2 ≠ [] := by
    intro hc
    have := congrArg List.length hc
    simp [hdt2len] at this
  have hesc2 : escapeLoop dt2 0 MAX_FRAME_SIZE = some esc := by
    rw [escape_data, if_neg hdt2ne] at hesc
    exact hesc
  obtain ⟨hlen_le, hcapfn, hmem, hlast⟩ := escapeLoop_sound dt2 0 MAX_FRAME_SIZE esc hesc2
  have hesccap : esc.length ≤ MAX_FRAME_SIZE := by
    have := hcapfn hdt2ne
    omega
  have hescge : 2 ≤ esc.length := by omega
  have hescne : esc ≠ [] := by
    intro hc
    rw [hc] at hescge
    simp at hescge
  have hunesc : unescape_data esc MAX_FRAME_SIZE = some dt2 := by
    rw [unescape_data, if_neg hescne]
    exact unescapeLoop_escapeLoop dt2 0 MAX_FRAME_SIZE esc 0 MAX_FRAME_SIZE hesc2 (by omega)
  have hcrclt : crcv < 65536 := calculate_crc16_lt _
  rw [hbs, decode_frame_shape esc g hescge]
  simp only [hunesc]
  rw [if_neg (by omega)]
  have hg1 : dt2.getD (dt2.length - 2) 0 = crcv % 256 := by
    have he : dt2.length - 2 = (serialize_header fd ++ fd.content).length := by
      omega
    rw [he, hdt2]
    exact getD_append_pair_fst _ _ _
  have hg2 : dt2.getD (dt2.length - 1) 0 = crcv / 256 % 256 := by
    have he : dt2.length - 1 = (serialize_header fd ++ fd.content).length + 1 := by
      omega
    rw [he, hdt2]
    exact getD_append_pair_snd _ _ _
  have htake : dt2.take (dt2.length - 2) = serialize_header fd ++ fd.content := by
    have he : dt2.length - 2 = (serialize_header fd ++ fd.content).length := by
      omega
    rw [he, hdt2, List.take_left]
  have hrecv : dt2.getD (dt2.length - 2) 0 + 256 * dt2.getD (dt2.length - 1) 0 = crcv := by
    rw [hg1, hg2]
    omega
  rw [hrecv, htake, ← hcrcv, if_neg (by simp)]
  have hclen2 : ((((dt2.length : Int) - 22) % 65536)).toNat = co.length := by
    have hco : co.length ≤ 2028 := by
      simpa [hfd] using hclen
    rw [hdt2len]
    have h1 : ((22 + co.length : Nat) : Int) - 22 = (co.length : Int) := by
      push_cast
      ring
    rw [h1, Int.emod_eq_of_lt (by positivity)
      (by exact_mod_cast (by omega : co.length < 65536))]
    simp
  rw [hclen2]
  have hexp : dt2 = la % 256 :: la / 256 % 256 ::
      sa % 256 :: sa / 256 % 256 :: sa / 65536 % 256 ::
      st % 256 :: st / 256 % 256 :: si % 256 :: si / 256 % 256 ::
      ra % 256 :: ra / 256 % 256 :: ra / 65536 % 256 ::
      rt % 256 :: rt / 256 % 256 :: ri % 256 :: ri / 256 % 256 ::
      pv % 256 :: opv % 256 :: oid % 256 :: oid / 256 % 256 ::
      (co ++ [crcv % 256, crcv / 256 % 256]) := by
    rw [hdt2]
    simp [serialize_header, serialize_device_id, hfd]
  have hdrop20 : dt2.drop 20 = co ++ [crcv % 256, crcv / 256 % 256] := by
    rw [hexp]
    rfl
  have htakeco : (co ++ [crcv % 256, crcv / 256 % 256]).take co.length = co :=
    List.take_left co _
  have hsender : deserialize_device_id (dt2.drop 2) =
      ⟨sa % 256 + 256 * (sa / 256 % 256) + 65536 * (sa / 65536 % 256),
       st % 256 + 256 * (st / 256 % 256),
       si % 256 + 256 * (si / 256 % 256)⟩ := by
    rw [hexp]
    rfl
  have hrecvr : deserialize_device_id (dt2.drop 9) =
      ⟨ra % 256 + 256 * (ra / 256 % 256) + 65536 * (ra / 65536 % 256),
       rt % 256 + 256 * (rt / 256 % 256),
       ri % 256 + 256 * (ri / 256 % 256)⟩ := by
    rw [hexp]
    rfl
  have hga : dt2.getD 0 0 = la % 256 := by rw [hexp]; rfl
  have hgb : dt2.getD 1 0 = la / 256 % 256 := by rw [hexp]; rfl
  have hgc : dt2.getD 16 0 = pv % 256 := by rw [hexp]; rfl
  have hgd : dt2.getD 17 0 = opv % 256 := by rw [hexp]; rfl
  have hge : dt2.getD 18 0 = oid % 256 := by rw [hexp]; rfl
  have hgf : dt2.getD 19 0 = oid / 256 % 256 := by rw [hexp]; rfl
  rw [hdrop20, htakeco, hsender, hrecvr, hga, hgb, hgc, hgd, hge, hgf]
  simp only [Prod.mk.injEq, protocol_frame_t.mk.injEq, data_table_t.mk.injEq,
    device_id_t.mk.injEq, hfd]
  refine ⟨trivial, trivial, ⟨?_, ⟨?_, ?_, ?_⟩, ⟨?_, ?_, ?_⟩, ?_, ?_, ?_, ?_, trivial⟩,
    trivial, trivial⟩ <;> omega

/-! ## Concrete frames used by the claims -/

/-- Data table of the spec's single-frame scenario: `SET_REQ` on
`COMMUNICATION` with sender `(admin 0x1AD24, type 0x02, id 0x100)`, empty
content, addressed to the signal controller `(admin 0x1AD24, type 0x01,
id 0x01)`. -/
def hsTable : data_table_t :=
  { link_addr := 0
    sender := ⟨0x1AD24, 0x02, 0x100⟩
    receiver := ⟨0x1AD24, 0x01, 0x01⟩
    protocol_ver := PROTOCOL_VERSION
    operation := OP_SET_REQUEST
    object_id := OBJ_COMMUNICATION
    content_len := 0
    content := [] }

def hsFrame : protocol_frame_t := ⟨FRAME_START, hsTable, 0, FRAME_END⟩

/-- Wire bytes of `hsFrame`: delimiter, 20 header bytes, the two CRC
octets `4C BE` (low, high), delimiter — 24 bytes in total. -/
def hsBytes : List Nat :=
  [0xC0, 0x00, 0x00, 0x24, 0xAD, 0x01, 0x02, 0x00, 0x00, 0x01,
   0x24, 0xAD, 0x01, 0x01, 0x00, 0x01, 0x00, 0x10, 0x81, 0x01, 0x01,
   0x4C, 0xBE, 0xC0]

/-- Table whose content is 1500 copies of the delimiter byte: its escaped
data table (20 + 2 header/CRC bytes plus 3000 escaped content bytes)
cannot fit the fixed 2048-byte internal buffer of `encode_frame`. -/
def escTable : data_table_t :=
  { link_addr := 0
    sender := zero_device
    receiver := zero_device
    protocol_ver := PROTOCOL_VERSION
    operation := OP_UPLOAD
    object_id := OBJ_TRAFFIC_REALTIME
    content_len := 1500
    content := List.replicate 1500 0xC0 }

def escFrame : protocol_frame_t := ⟨FRAME_START, escTable, 0, FRAME_END⟩

/-- Table with a 1501-byte content — one byte over `MAX_CONTENT_SIZE`. -/
def bigTable : data_table_t :=
  { link_addr := 0
    sender := zero_device
    receiver := zero_device
    protocol_ver := PROTOCOL_VERSION
    operation := OP_UPLOAD
    object_id := OBJ_TRAFFIC_STATS
    content_len := 1501
    content := List.replicate 1501 0 }

def bigFrame : protocol_frame_t := ⟨FRAME_START, bigTable, 0, FRAME_END⟩

/-- Table of a valid empty-content frame between all-zero device ids
(`QUERY_REQ` on `COMMUNICATION`). -/
def c3Table : data_table_t :=
  { link_addr := 0
    sender := zero_device
    receiver := zero_device
    protocol_ver := PROTOCOL_VERSION
    operation := OP_QUERY_REQUEST
    object_id := OBJ_COMMUNICATION
    content_len := 0
    content := [] }

def c3Frame : protocol_frame_t := ⟨FRAME_START, c3Table, 0, FRAME_END⟩

/-- Wire bytes of `c3Frame`; the unescaped interior is 22 bytes. -/
def c3Bytes : List Nat :=
  [0xC0, 0x00, 0x00, 0x00, 0x00, 0x00, 0x00, 0x00, 0x00, 0x00,
   0x00, 0x00, 0x00, 0x00, 0x00, 0x00, 0x00, 0x10, 0x80, 0x01, 0x01,
   0xE1, 0x63, 0xC0]

/-! ## Escape-size accounting (used to settle encode on large inputs) -/

/-- Exact number of output bytes the escaping loop produces for `input`:
two for each byte needing escape, one for every other byte. -/
def escSize : List Nat → Nat
  | [] => 0
  | b :: rest => (if b = FRAME_START ∨ b = ESCAPE_CHAR then 2 else 1) + escSize rest

theorem escSize_append (l1 l2 : List Nat) :
    escSize (l1 ++ l2) = escSize l1 + escSize l2 := by
  induction l1 with
  | nil => simp [escSize]
  | cons b rest ih =>
    show escSize (b :: (rest ++ l2)) = escSize (b :: rest) + escSize l2
    rw [escSize, escSize, ih]
    omega

theorem escSize_replicate_esc (n : Nat) (b : Nat)
    (hb : b = FRAME_START ∨ b = ESCAPE_CHAR) :
    escSize (List.replicate n b) = 2 * n := by
  induction n with
  | zero => simp [escSize]
  | succ m ih =>
    simp only [List.replicate_succ, escSize, ih, if_pos hb]
    omega

theorem escSize_replicate_plain (n : Nat) (b : Nat)
    (hb : ¬ (b = FRAME_START ∨ b = ESCAPE_CHAR)) :
    escSize (List.replicate n b) = n := by
  induction n with
  | zero => simp [escSize]
  | succ m ih =>
    simp only [List.replicate_succ, escSize, ih, if_neg hb]
    omega

theorem escSize_le_two_mul (l : List Nat) : escSize l ≤ 2 * l.length := by
  induction l with
  | nil => simp [escSize]
  | cons b rest ih =>
    simp only [escSize, List.length_cons]
    split <;> omega

/-- The escaping loop can only succeed when the escaped size (plus the
starting position) fits the capacity: each step writes one or two bytes
after checking `output_pos >= output_size - 1`. -/
theorem escapeLoop_some_bound (input : List Nat) : ∀ (pos size : Nat) (out : List Nat),
    escapeLoop input pos size = some out → input = [] ∨ pos + escSize input ≤ size := by
  induction input with
  | nil =>
    intro pos size out _
    exact Or.inl rfl
  | cons b rest ih =>
    intro pos size out h
    right
    rw [escapeLoop] at h
    by_cases hpos : pos ≥ size - 1
    · rw [if_pos hpos] at h
      cases h
    · rw [if_neg hpos] at h
      have hsz : pos + 2 ≤ size := by omega
      by_cases hb1 : b = FRAME_START
      · rw [if_pos hb1] at h
        by_cases hp2 : pos + 1 ≥ size
        · rw [if_pos hp2] at h
          cases h
        · rw [if_neg hp2] at h
          obtain ⟨t, ht, _⟩ := Option.map_eq_some'.mp h
          rcases ih (pos + 2) size t ht with hnil | hle
          · subst hnil
            simp only [escSize, if_pos (Or.inl hb1)]
            omega
          · simp only [escSize, if_pos (Or.inl hb1)]
            omega
      · rw [if_neg hb1] at h
        by_cases hb2 : b = ESCAPE_CHAR
        · rw [if_pos hb2] at h
          by_cases hp2 : pos + 1 ≥ size
          · rw [if_pos hp2] at h
            cases h
          · rw [if_neg hp2] at h
            obtain ⟨t, ht, _⟩ := Option.map_eq_some'.mp h
            rcases ih (pos + 2) size t ht with hnil | hle
            · subst hnil
              simp only [escSize, if_pos (Or.inr hb2)]
              omega
            · simp only [escSize, if_pos (Or.inr hb2)]
              omega
        · rw [if_neg hb2] at h
          obtain ⟨t, ht, _⟩ := Option.map_eq_some'.mp h
          have hnb : ¬ (b = FRAME_START ∨ b = ESCAPE_CHAR) := by tauto
          rcases ih (pos + 1) size t ht with hnil | hle
          · subst hnil
            simp only [escSize, if_neg hnb]
            omega
          · simp only [escSize, if_neg hnb]
            omega

/-- Conversely, when the escaped size strictly fits the capacity the loop
succeeds and writes exactly `escSize input` bytes. -/
theorem escapeLoop_some_of_lt (input : List Nat) : ∀ (pos size : Nat),
    pos + escSize input < size →
    ∃ out, escapeLoop input pos size = some out ∧ out.length = escSize input := by
  induction input with
  | nil =>
    intro pos size _
    exact ⟨[], rfl, rfl⟩
  | cons b rest ih =>
    intro pos size h
    have hpos : ¬ pos ≥ size - 1 := by
      simp only [escSize] at h
      split at h <;> omega
    by_cases hb1 : b = FRAME_START
    · have h2 : pos + 2 + escSize rest < size := by
        simp only [escSize, if_pos (Or.inl hb1)] at h
        omega
      obtain ⟨out, ho, hl⟩ := ih (pos + 2) size h2
      refine ⟨ESCAPE_CHAR :: ESCAPE_START :: out, ?_, ?_⟩
      · rw [escapeLoop, if_neg hpos, if_pos hb1,
          if_neg (show ¬ pos + 1 ≥ size by omega), ho]
        rfl
      · simp only [List.length_cons, hl, escSize, if_pos (Or.inl hb1)]
        omega
    · by_cases hb2 : b = ESCAPE_CHAR
      · have h2 : pos + 2 + escSize rest < size := by
          simp only [escSize, if_pos (Or.inr hb2)] at h
          omega
        obtain ⟨out, ho, hl⟩ := ih (pos + 2) size h2
        refine ⟨ESCAPE_CHAR :: ESCAPE_ESCAPE :: out, ?_, ?_⟩
        · rw [escapeLoop, if_neg hpos, if_neg hb1, if_pos hb2,
            if_neg (show ¬ pos + 1 ≥ size by omega), ho]
          rfl
        · simp only [List.length_cons, hl, escSize, if_pos (Or.inr hb2)]
          omega
      · have hnb : ¬ (b = FRAME_START ∨ b = ESCAPE_CHAR) := by tauto
        have h2 : pos + 1 + escSize rest < size := by
          simp only [escSize, if_neg hnb] at h
          omega
        obtain ⟨out, ho, hl⟩ := ih (pos + 1) size h2
        refine ⟨b :: out, ?_, ?_⟩
        · rw [escapeLoop, if_neg hpos, if_neg hb1, if_neg hb2, ho]
          rfl
        · simp only [List.length_cons, hl, escSize, if_neg hnb]
          omega

/-- Success equation for `encode_frame` in terms of its stages, kept
symbolic so concrete instances never force evaluation of the CRC. -/
theorem encode_frame_eq (frame : protocol_frame_t) (buffer_size : Nat)
    (dt esc : List Nat) (hcap : ¬ buffer_size < 20)
    (hbd : build_data_table frame.data = some dt)
    (hesc : escape_data (dt ++ [calculate_crc16 dt % 256, calculate_crc16 dt / 256 % 256])
      MAX_FRAME_SIZE = some esc)
    (hfit : ¬ (1 + esc.length ≥ buffer_size)) :
    encode_frame frame buffer_size = some (FRAME_START :: esc ++ [FRAME_END]) := by
  unfold encode_frame
  rw [if_neg hcap, hbd]
  dsimp only
  rw [hesc]
  dsimp only
  rw [if_neg hfit]

theorem escTable_valid : ValidTable escTable := by
  refine ⟨by decide, by decide, by decide, by decide, by decide, by decide,
    by decide, by decide, by decide, by decide, by simp [escTable], fun b hb => ?_⟩
  have hb2 : b = 0xC0 :=
    List.eq_of_mem_replicate (show b ∈ List.replicate 1500 0xC0 from hb)
  omega

theorem bigTable_valid : ValidTable bigTable := by
  refine ⟨by decide, by decide, by decide, by decide, by decide, by decide,
    by decide, by decide, by decide, by decide, by simp [bigTable], fun b hb => ?_⟩
  have hb2 : b = 0 :=
    List.eq_of_mem_replicate (show b ∈ List.replicate 1501 0 from hb)
  omega

/-! ## Claim C1 — encode/decode round trip -/

/-- C1 (amended): for every valid `DataTable` (content up to 1500 arbitrary
bytes) on which `encode_frame` actually succeeds — i.e. whose escaped data
table fits the fixed 2048-byte internal buffer and the caller's capacity —
decoding the encoder's output succeeds and yields a `DataTable` equal to
the original in every field. -/
theorem claim_C1_roundtrip (f : protocol_frame_t) (cap : Nat) (bs : List Nat)
    (g : protocol_frame_t) (hv : ValidTable f.data)
    (hsz : f.data.content.length ≤ MAX_CONTENT_SIZE)
    (henc : encode_frame f cap = some bs) :
    (decode_frame bs g).1 = .success ∧ (decode_frame bs g).2.data = f.data := by
  clear hsz
  rw [decode_encode_frame f cap bs g hv henc]
  exact ⟨rfl, rfl⟩

/-- C1 counterexample: the valid table whose 1500-byte content is all
delimiter bytes cannot be encoded at all — `encode_frame` fails even with
a 4096-byte output buffer, because the escaped data table overflows the
fixed 2048-byte internal array — so `decode (encode d) = d` fails for it. -/
theorem claim_C1_counterexample :
    ValidTable escFrame.data ∧ escFrame.data.content.length ≤ MAX_CONTENT_SIZE ∧
    encode_frame escFrame 4096 = none := by
  refine ⟨escTable_valid, by simp [escFrame, escTable, MAX_CONTENT_SIZE], ?_⟩
  have hbd : build_data_table escFrame.data =
      some (serialize_header escTable ++ List.replicate 1500 0xC0) := by
    show build_data_table escTable = _
    unfold build_data_table
    rw [if_pos ⟨by simp [escTable], by simp [escTable]⟩,
      if_neg (by simp [escTable, MAX_FRAME_SIZE])]
    simp [escTable, List.take_replicate]
  have hescnone : ∀ c2 : List Nat,
      escape_data ((serialize_header escTable ++ List.replicate 1500 0xC0) ++ c2)
        MAX_FRAME_SIZE = none := by
    intro c2
    rw [escape_data, if_neg (by simp)]
    cases he : escapeLoop ((serialize_header escTable ++ List.replicate 1500 0xC0) ++ c2) 0
        MAX_FRAME_SIZE with
    | none => rfl
    | some out =>
      exfalso
      rcases escapeLoop_some_bound _ 0 MAX_FRAME_SIZE out he with hnil | hle
      · simp at hnil
      · rw [escSize_append, escSize_append,
          escSize_replicate_esc 1500 0xC0 (Or.inl rfl)] at hle
        simp only [MAX_FRAME_SIZE] at hle
        omega
  show encode_frame escFrame 4096 = none
  unfold encode_frame
  rw [if_neg (by norm_num), hbd]
  dsimp only
  rw [hescnone]

/-- C1 witness: the concrete handshake frame round-trips. -/
theorem claim_C1_witness :
    ValidTable hsFrame.data ∧ hsFrame.data.content.length ≤ MAX_CONTENT_SIZE ∧
    encode_frame hsFrame 2048 = some hsBytes ∧
    (decode_frame hsBytes empty_frame).1 = .success ∧
    (decode_frame hsBytes empty_frame).2.data = hsFrame.data :=
  ⟨by decide, by decide, by decide,
    claim_C1_roundtrip hsFrame 2048 hsBytes empty_frame (by decide) (by decide) (by decide)⟩

/-! ## Claim C3 — minimum length and implicit content length -/

/-- C3 (amended): on a delimited candidate whose interior unescapes to `u`,
decode returns `INCOMPLETE` whenever `u` is shorter than 20 bytes; and every
successfully decoded frame has `content_len` equal to the total unescaped
length minus 22 (the 20-byte header plus 2-byte CRC), computed as the C
`int` difference `(unescaped_len - 2) - 20` stored into a `uint16_t` —
so for unescaped lengths 20 and 21 that pass the CRC check the value wraps
to 65534 and 65535 instead of being a consistent non-negative length. -/
theorem claim_C3_content_length (esc u : List Nat) (g : protocol_frame_t)
    (hlen : 2 ≤ esc.length) (hu : unescape_data esc MAX_FRAME_SIZE = some u) :
    (u.length < 20 → decode_frame (FRAME_START :: esc ++ [FRAME_END]) g = (.incomplete, g)) ∧
    ((decode_frame (FRAME_START :: esc ++ [FRAME_END]) g).1 = .success →
      (decode_frame (FRAME_START :: esc ++ [FRAME_END]) g).2.data.content_len =
        ((((u.length : Int) - 22) % 65536)).toNat) := by
  rw [decode_frame_shape esc g hlen]
  simp only [hu]
  constructor
  · intro hlt
    rw [if_pos hlt]
  · intro hsucc
    by_cases hlt : u.length < 20
    · rw [if_pos hlt] at hsucc
      cases hsucc
    · rw [if_neg hlt] at hsucc ⊢
      by_cases hcrc : u.getD (u.length - 2) 0 + 256 * u.getD (u.length - 1) 0 ≠
          calculate_crc16 (u.take (u.length - 2))
      · rw [if_pos hcrc] at hsucc
        cases hsucc
      · rw [if_neg hcrc]

/-- C3 counterexample: a successfully decoded 24-byte frame has an
unescaped interior of 22 bytes and `content_len = 0`, not the claimed
`22 - 20 = 2`. -/
theorem claim_C3_counterexample :
    (unescape_data ((c3Bytes.drop 1).dropLast) MAX_FRAME_SIZE).map List.length = some 22 ∧
    (decode_frame c3Bytes empty_frame).1 = .success ∧
    (decode_frame c3Bytes empty_frame).2.data.content_len = 0 ∧
    (0 : Nat) ≠ 22 - 20 := by
  refine ⟨by decide, by decide, by decide, by decide⟩

/-- C3 witness: a 4-byte unescaped interior yields `INCOMPLETE`. -/
theorem claim_C3_witness :
    2 ≤ (List.replicate 4 (7 : Nat)).length ∧
    unescape_data (List.replicate 4 (7 : Nat)) MAX_FRAME_SIZE = some (List.replicate 4 7) ∧
    decode_frame (FRAME_START :: List.replicate 4 (7 : Nat) ++ [FRAME_END]) empty_frame =
      (.incomplete, empty_frame) :=
  ⟨by decide, by decide,
    (claim_C3_content_length (List.replicate 4 7) (List.replicate 4 7) empty_frame
      (by decide) (by decide)).1 (by decide)⟩

/-! ## Claim C5 — unescape error behaviour -/

/-- Unfolding step for `unescapeLoop` at a head byte that is not the escape
byte, for an arbitrary (not yet destructured) tail. -/
theorem unescapeLoop_cons_ne (x : Nat) (l : List Nat) (pos size : Nat)
    (hx : x ≠ ESCAPE_CHAR) :
    unescapeLoop (x :: l) pos size =
      if pos ≥ size then none
      else (unescapeLoop l (pos + 1) size).map (fun t => x :: t) := by
  cases l with
  | nil => simp [unescapeLoop, hx]
  | cons y ys => simp [unescapeLoop, hx]

/-- The unescape loop copies an escape-free list through unchanged as long
as it fits the output capacity. -/
theorem unescapeLoop_no_escape (l : List Nat) : ∀ (pos size : Nat),
    ESCAPE_CHAR ∉ l → pos + l.length ≤ size → unescapeLoop l pos size = some l := by
  induction l with
  | nil =>
    intro pos size _ _
    rfl
  | cons x rest ih =>
    intro pos size hmem hsz
    have hx : x ≠ ESCAPE_CHAR := fun hc => hmem (by simp [hc])
    rw [unescapeLoop_cons_ne x rest pos size hx,
      if_neg (show ¬ pos ≥ size by simp at hsz ⊢; omega),
      ih (pos + 1) size (fun hc => hmem (by simp [hc])) (by simp at hsz ⊢; omega)]
    rfl

theorem unescapeLoop_bad_pair (front : List Nat) :
    ∀ (pos size b : Nat) (rest : List Nat),
    ESCAPE_CHAR ∉ front → b ≠ ESCAPE_START → b ≠ ESCAPE_ESCAPE →
    unescapeLoop (front ++ ESCAPE_CHAR :: b :: rest) pos size = none := by
  induction front with
  | nil =>
    intro pos size b rest _ hb1 hb2
    simp [unescapeLoop, hb1, hb2, ESCAPE_CHAR]
  | cons x front2 ih =>
    intro pos size b rest hmem hb1 hb2
    have hx : x ≠ ESCAPE_CHAR := by
      intro hc
      exact hmem (by simp [hc])
    rw [List.cons_append, unescapeLoop_cons_ne x _ pos size hx,
      ih (pos + 1) size b rest (fun hc => hmem (by simp [hc])) hb1 hb2]
    simp

theorem unescapeLoop_trailing (front : List Nat) :
    ∀ (pos size : Nat), ESCAPE_CHAR ∉ front → pos + front.length < size →
    unescapeLoop (front ++ [ESCAPE_CHAR]) pos size = some (front ++ [ESCAPE_CHAR]) := by
  induction front with
  | nil =>
    intro pos size _ hsz
    simp at hsz
    simp [unescapeLoop, Nat.not_le.mpr hsz]
  | cons x front2 ih =>
    intro pos size hmem hsz
    have hx : x ≠ ESCAPE_CHAR := by
      intro hc
      exact hmem (by simp [hc])
    rw [List.cons_append, unescapeLoop_cons_ne x _ pos size hx,
      ih (pos + 1) size (fun hc => hmem (by simp [hc])) (by simp at hsz ⊢; omega)]
    have hpos : ¬ pos ≥ size := by
      simp at hsz
      omega
    rw [if_neg hpos]
    rfl

/-- C5 (amended): a `0xDB` followed by a second byte other than `0xDC` or
`0xDD` makes `unescape_data` fail (here after any escape-free run-up), for
every capacity; but a trailing `0xDB` with no successor is NOT a format
error — the C's plain-copy branch passes it through unchanged whenever the
capacity allows. -/
theorem claim_C5_unescape_errors :
    (∀ (front : List Nat) (b : Nat) (rest : List Nat) (size : Nat),
      ESCAPE_CHAR ∉ front → b ≠ ESCAPE_START → b ≠ ESCAPE_ESCAPE →
      unescape_data (front ++ ESCAPE_CHAR :: b :: rest) size = none) ∧
    (∀ (front : List Nat) (size : Nat),
      ESCAPE_CHAR ∉ front → front.length < size →
      unescape_data (front ++ [ESCAPE_CHAR]) size = some (front ++ [ESCAPE_CHAR])) := by
  constructor
  · intro front b rest size hmem hb1 hb2
    rw [unescape_data, if_neg (by simp)]
    exact unescapeLoop_bad_pair front 0 size b rest hmem hb1 hb2
  · intro front size hmem hsz
    rw [unescape_data, if_neg (by simp)]
    exact unescapeLoop_trailing front 0 size hmem (by omega)

/-- C5 counterexample: the one-byte input consisting of a trailing `0xDB`
is passed through unchanged by `unescape_data` instead of failing. -/
theorem claim_C5_counterexample :
    unescape_data [ESCAPE_CHAR] MAX_FRAME_SIZE = some [ESCAPE_CHAR] := by
  decide

/-- C5 witness: concrete instances of both amended behaviours. -/
theorem claim_C5_witness :
    (ESCAPE_CHAR ∉ ([1] : List Nat) ∧ (5 : Nat) ≠ ESCAPE_START ∧ (5 : Nat) ≠ ESCAPE_ESCAPE ∧
      unescape_data [1, ESCAPE_CHAR, 5] MAX_FRAME_SIZE = none) ∧
    (([1] : List Nat).length < MAX_FRAME_SIZE ∧
      unescape_data [1, ESCAPE_CHAR] MAX_FRAME_SIZE = some [1, ESCAPE_CHAR]) :=
  ⟨⟨by decide, by decide, by decide,
    claim_C5_unescape_errors.1 [1] 5 [] MAX_FRAME_SIZE (by decide) (by decide) (by decide)⟩,
   ⟨by decide,
    claim_C5_unescape_errors.2 [1] MAX_FRAME_SIZE (by decide) (by decide)⟩⟩

/-! ## Claim C6 — maximum sizes -/

/-- C6 (amended): a candidate frame whose unescaped form exceeds the
2048-byte `MAX_FRAME_SIZE` is rejected by `decode_frame` (as an `ESCAPE`
error, via the bounded unescape buffer); the content-size half of the
original claim is refuted by `claim_C6_counterexample`. -/
theorem claim_C6_oversize (esc u : List Nat) (g : protocol_frame_t)
    (hlen : 2 ≤ esc.length) (hu : unescape_full esc = some u)
    (hov : MAX_FRAME_SIZE < u.length) :
    decode_frame (FRAME_START :: esc ++ [FRAME_END]) g = (.escape_invalid, g) := by
  have hescne : esc ≠ [] := by
    intro hc
    rw [hc] at hlen
    simp at hlen
  unfold unescape_full at hu
  have hnone : unescape_data esc MAX_FRAME_SIZE = none := by
    rw [unescape_data, if_neg hescne]
    exact unescapeLoop_bound_fail esc 0 esc.length u MAX_FRAME_SIZE hu (by omega) hescne
  rw [decode_frame_shape esc g hlen]
  simp [hnone]

/-- C6 counterexample: a well-formed frame with a valid CRC and a
1501-byte content — larger than `MAX_CONTENT_SIZE` — is decoded
successfully rather than rejected. -/
theorem claim_C6_counterexample :
    (encode_frame bigFrame 4096).isSome = true ∧
    (decode_frame ((encode_frame bigFrame 4096).getD []) empty_frame).1 = .success ∧
    (decode_frame ((encode_frame bigFrame 4096).getD []) empty_frame).2.data.content_len
      = 1501 ∧
    MAX_CONTENT_SIZE < 1501 := by
  have hv : ValidTable bigFrame.data := bigTable_valid
  have hbd : build_data_table bigFrame.data =
      some (serialize_header bigTable ++ List.replicate 1501 0) := by
    show build_data_table bigTable = _
    unfold build_data_table
    rw [if_pos ⟨by simp [bigTable], by simp [bigTable]⟩,
      if_neg (by simp [bigTable, MAX_FRAME_SIZE])]
    simp [bigTable, List.take_replicate]
  have hW : ∀ c1 c2 : Nat,
      escSize ((serialize_header bigTable ++ List.replicate 1501 0) ++ [c1, c2]) ≤ 1545 := by
    intro c1 c2
    rw [escSize_append, escSize_append, escSize_replicate_plain 1501 0 (by decide)]
    have h1 : escSize (serialize_header bigTable) ≤ 2 * (serialize_header bigTable).length :=
      escSize_le_two_mul _
    rw [serialize_header_length] at h1
    have h2 : escSize [c1, c2] ≤ 2 * ([c1, c2]).length := escSize_le_two_mul _
    simp only [List.length_cons, List.length_nil] at h2
    omega
  obtain ⟨out, ho, hl⟩ := escapeLoop_some_of_lt
    ((serialize_header bigTable ++ List.replicate 1501 0) ++
      [calculate_crc16 (serialize_header bigTable ++ List.replicate 1501 0) % 256,
       calculate_crc16 (serialize_header bigTable ++ List.replicate 1501 0) / 256 % 256])
    0 MAX_FRAME_SIZE (by
      have hx := hW (calculate_crc16 (serialize_header bigTable ++ List.replicate 1501 0) % 256)
        (calculate_crc16 (serialize_header bigTable ++ List.replicate 1501 0) / 256 % 256)
      simp only [MAX_FRAME_SIZE]
      omega)
  have hout : out.length ≤ 1545 := by
    rw [hl]
    exact hW _ _
  have henc : encode_frame bigFrame 4096 = some (FRAME_START :: out ++ [FRAME_END]) := by
    refine encode_frame_eq bigFrame 4096 (serialize_header bigTable ++ List.replicate 1501 0)
      out (by norm_num) hbd ?_ (by omega)
    rw [escape_data, if_neg (by simp)]
    exact ho
  have hdec := decode_encode_frame bigFrame 4096 (FRAME_START :: out ++ [FRAME_END])
    empty_frame hv henc
  refine ⟨by rw [henc]; rfl, ?_, ?_, by decide⟩
  · rw [henc]
    simp only [Option.getD_some]
    rw [hdec]
  · rw [henc]
    simp only [Option.getD_some]
    rw [hdec]
    rfl

/-- C6 witness: a 2049-byte all-ones interior unescapes (unbounded) to
2049 bytes and is rejected as an escape error by `decode_frame`. -/
theorem claim_C6_witness :
    2 ≤ (List.replicate 2049 (1 : Nat)).length ∧
    unescape_full (List.replicate 2049 (1 : Nat)) = some (List.replicate 2049 1) ∧
    MAX_FRAME_SIZE < (List.replicate 2049 (1 : Nat)).length ∧
    decode_frame (FRAME_START :: List.replicate 2049 (1 : Nat) ++ [FRAME_END]) empty_frame =
      (.escape_invalid, empty_frame) := by
  have hu : unescape_full (List.replicate 2049 (1 : Nat)) = some (List.replicate 2049 1) := by
    unfold unescape_full
    rw [List.length_replicate]
    exact unescapeLoop_no_escape (List.replicate 2049 1) 0 2049
      (fun hc => by have hq := List.eq_of_mem_replicate hc; simp [ESCAPE_CHAR] at hq)
      (by simp)
  exact ⟨by simp, hu, by simp [MAX_FRAME_SIZE],
    claim_C6_oversize (List.replicate 2049 1) (List.replicate 2049 1) empty_frame
      (by simp) hu (by simp [MAX_FRAME_SIZE])⟩

/-! ## Claim C7 — the concrete handshake frame -/

/-- C7 (amended): encoding the `SET_REQ`/`COMMUNICATION` handshake with
sender `(0x1AD24, 0x02, 0x100)` and empty content yields a frame whose
first and last bytes are `0xC0`, whose CRC octets (low then high)
immediately precede the trailing delimiter, and which decodes back to an
equal `DataTable` — but its total length is 24 bytes (1 + 20-byte header +
2 CRC + 1, nothing needing escape), not 23. -/
theorem claim_C7_single_frame :
    encode_frame hsFrame 2048 = some hsBytes ∧
    hsBytes.length = 24 ∧
    hsBytes.getD 0 0 = FRAME_START ∧
    hsBytes.getD (hsBytes.length - 1) 0 = FRAME_END ∧
    hsBytes.getD (hsBytes.length - 3) 0 = calculate_crc16 (serialize_header hsTable) % 256 ∧
    hsBytes.getD (hsBytes.length - 2) 0 =
      calculate_crc16 (serialize_header hsTable) / 256 % 256 ∧
    (decode_frame hsBytes empty_frame).1 = .success ∧
    (decode_frame hsBytes empty_frame).2.data = hsTable := by
  refine ⟨by decide, by decide, by decide, by decide, by decide, by decide, by decide,
    by decide⟩

/-- C7 counterexample: the scenario's encoded frame is 24 bytes long, not
the 23 bytes the claim states. -/
theorem claim_C7_counterexample :
    (encode_frame hsFrame 2048).map List.length = some 24 ∧ (24 : Nat) ≠ 23 := by
  exact ⟨by decide, by decide⟩

/-! ## Claim C9 — decode leaves the output frame untouched on error -/

/-- C9: whenever `decode_frame` returns `FORMAT`, `ESCAPE`, `INCOMPLETE`
or `CRC`, the caller-supplied frame comes back exactly as it went in —
every write to the output structure happens after the last of these error
returns. -/
theorem claim_C9_error_atomicity (buffer : List Nat) (g g' : protocol_frame_t)
    (r : protocol_result_t) (h : decode_frame buffer g = (r, g'))
    (hr : r = .format ∨ r = .escape_invalid ∨ r = .incomplete ∨ r = .crc_error) :
    g' = g := by
  unfold decode_frame at h
  repeat' split at h
  all_goals try dsimp only at h
  repeat' split at h
  all_goals injection h with h1 h2
  all_goals first
    | exact h2.symm
    | (subst h1; rcases hr with hx | hx | hx | hx <;> cases hx)

/-- C9 witness: a frame failing the delimiter check leaves the frame
argument unchanged. -/
theorem claim_C9_witness :
    decode_frame [1, 1, 1, 1] empty_frame = (.format, empty_frame) ∧
    empty_frame = empty_frame :=
  ⟨by decide,
    claim_C9_error_atomicity [1, 1, 1, 1] empty_frame empty_frame .format
      (by decide) (Or.inl rfl)⟩

/-! ## Claim C10 — inputs shorter than 4 bytes -/

/-- C10: every input buffer shorter than 4 bytes is rejected as
`INVALID_PARAM` — never `FORMAT` or `INCOMPLETE` — including the 2-byte
`C0 C0` input, because the length guard precedes the delimiter check. -/
theorem claim_C10_short_input (buffer : List Nat) (g : protocol_frame_t)
    (h : buffer.length < 4) : decode_frame buffer g = (.invalid_param, g) := by
  unfold decode_frame
  rw [if_pos h]

/-- C10 witness: the delimiter-only 2-byte input. -/
theorem claim_C10_witness :
    ([FRAME_START, FRAME_END] : List Nat).length < 4 ∧
    decode_frame [FRAME_START, FRAME_END] empty_frame = (.invalid_param, empty_frame) :=
  ⟨by decide, claim_C10_short_input [FRAME_START, FRAME_END] empty_frame (by decide)⟩

/-! ## Claim C4 — server error reporting (signal_controller.c) -/

/-- Error path of C `process_single_frame`: when `decode_frame` fails on a
candidate frame the server builds
`create_error_frame(controller.device_id, client.device_id, ERROR_CRC)` —
the constant `ERROR_CRC`, whatever the failure kind — and sends its
encoding; on success no error reply is sent (the frame goes to the
object-id dispatch instead, which is not needed here). -/
def process_single_frame_error_reply (srv cli : device_id_t) (frame_data : List Nat) :
    Option protocol_frame_t :=
  if (decode_frame frame_data empty_frame).1 = .success then none
  else some (create_error_frame srv cli ERROR_CRC)

/-- C4 (amended): whenever frame decode fails at the server, the
synthesized reply is an `ERROR_RESP` (0x86) on object `0x0000` whose
single content byte is always `ERROR_CRC = 3`, regardless of which kind
of decode error occurred — not the per-kind code of the spec's table. -/
theorem claim_C4_error_reply (srv cli : device_id_t) (frame_data : List Nat)
    (h : (decode_frame frame_data empty_frame).1 ≠ .success) :
    process_single_frame_error_reply srv cli frame_data =
      some (create_error_frame srv cli ERROR_CRC) ∧
    (create_error_frame srv cli ERROR_CRC).data.operation = OP_ERROR_RESPONSE ∧
    (create_error_frame srv cli ERROR_CRC).data.object_id = 0x0000 ∧
    (create_error_frame srv cli ERROR_CRC).data.content = [ERROR_CRC] := by
  refine ⟨?_, rfl, rfl, rfl⟩
  rw [process_single_frame_error_reply, if_neg h]

/-- C4 counterexample: a frame rejected with `FORMAT` (wrong frame-start
byte) is answered with error byte 3 (`ERROR_CRC`), not the table's 1
(`ERROR_FRAME_START`). -/
theorem claim_C4_counterexample :
    (decode_frame [1, 2, 3, 4, 5] empty_frame).1 = .format ∧
    (process_single_frame_error_reply zero_device zero_device [1, 2, 3, 4, 5]).map
      (fun fr => fr.data.content) = some [ERROR_CRC] ∧
    ERROR_CRC ≠ ERROR_FRAME_START := by
  refine ⟨by decide, by decide, by decide⟩

/-- C4 witness: a concrete failing frame produces the constant reply. -/
theorem claim_C4_witness :
    (decode_frame [9, 9, 9, 9] empty_frame).1 ≠ .success ∧
    (process_single_frame_error_reply zero_device zero_device [9, 9, 9, 9] =
       some (create_error_frame zero_device zero_device ERROR_CRC) ∧
     (create_error_frame zero_device zero_device ERROR_CRC).data.operation =
       OP_ERROR_RESPONSE ∧
     (create_error_frame zero_device zero_device ERROR_CRC).data.object_id = 0x0000 ∧
     (create_error_frame zero_device zero_device ERROR_CRC).data.content = [ERROR_CRC]) :=
  ⟨by decide, claim_C4_error_reply zero_device zero_device [9, 9, 9, 9] (by decide)⟩

/-! ## Claim C8 — heartbeat timeout (signal_controller.c) -/

/-- Model of C `client_info_t` restricted to the fields the heartbeat logic
reads and writes: the `connected` flag and the `last_heartbeat` wall-clock
timestamp (`time_t`, modelled as `Int`). -/
structure client_info_t where
  connected : Bool
  last_heartbeat : Int
deriving DecidableEq, Repr

/-- Heartbeat-relevant state of C `signal_controller_t`: the client table
and `last_heartbeat_check`. -/
structure controller_state where
  clients : List client_info_t
  last_heartbeat_check : Int
deriving DecidableEq, Repr

/-- Effect of C `disconnect_client` on the modelled fields (the C also
closes the socket, resets the receive buffer and decrements the count). -/
def disconnect_client (c : client_info_t) : client_info_t :=
  { c with connected := false }

/-- C `check_heartbeat_timeout`: every connected client whose
`last_heartbeat` lies strictly more than `HEARTBEAT_TIMEOUT` seconds in the
past is disconnected; every other slot is left alone. -/
def check_heartbeat_timeout (now : Int) (clients : List client_info_t) :
    List client_info_t :=
  clients.map fun c =>
    if c.connected = true ∧ now - c.last_heartbeat > HEARTBEAT_TIMEOUT then
      disconnect_client c
    else c

/-- Heartbeat step of the `signal_controller_start` main loop: when at
least `HEARTBEAT_INTERVAL` seconds have passed since `last_heartbeat_check`,
the server sends heartbeat queries to the connected clients (no modelled
state change), runs `check_heartbeat_timeout`, and records `now` as the new
check time; otherwise the tick leaves the state unchanged. -/
def heartbeat_tick (now : Int) (st : controller_state) : controller_state :=
  if now - st.last_heartbeat_check ≥ HEARTBEAT_INTERVAL then
    { clients := check_heartbeat_timeout now st.clients
      last_heartbeat_check := now }
  else st

/-- C8: at every tick where at least `HEARTBEAT_INTERVAL` (5 s) has elapsed
since the previous check, the check runs (recording the new check time);
it disconnects exactly the connected sessions whose `last_heartbeat` is
more than `HEARTBEAT_TIMEOUT` (15 s) old and leaves every session within
the timeout untouched; before the interval elapses the tick is a no-op. -/
theorem claim_C8_heartbeat_timeout (now : Int) (st : controller_state) (i : Nat)
    (c : client_info_t) (hi : st.clients[i]? = some c) :
    (now - st.last_heartbeat_check ≥ HEARTBEAT_INTERVAL →
      ((heartbeat_tick now st).last_heartbeat_check = now ∧
       (c.connected = true → now - c.last_heartbeat > HEARTBEAT_TIMEOUT →
         (heartbeat_tick now st).clients[i]? = some (disconnect_client c)) ∧
       (now - c.last_heartbeat ≤ HEARTBEAT_TIMEOUT →
         (heartbeat_tick now st).clients[i]? = some c))) ∧
    (now - st.last_heartbeat_check < HEARTBEAT_INTERVAL →
      heartbeat_tick now st = st) := by
  constructor
  · intro h5
    rw [heartbeat_tick, if_pos h5]
    refine ⟨rfl, ?_, ?_⟩
    · intro hconn hold
      simp [check_heartbeat_timeout, List.getElem?_map, hi, hconn, hold]
    · intro hyoung
      have hcond : ¬ (c.connected = true ∧ now - c.last_heartbeat > HEARTBEAT_TIMEOUT) := by
        rintro ⟨_, hgt⟩
        omega
      simp [check_heartbeat_timeout, List.getElem?_map, hi, hcond]
  · intro hlt
    rw [heartbeat_tick, if_neg (by omega)]

/-- C8 witness: at tick time 100 with the last check at 0, the session last
heard from at time 0 is disconnected and the one last heard from at 90 is
kept. -/
theorem claim_C8_witness :
    (heartbeat_tick 100 ⟨[⟨true, 0⟩, ⟨true, 90⟩], 0⟩).clients[0]? =
      some (disconnect_client ⟨true, 0⟩) ∧
    (heartbeat_tick 100 ⟨[⟨true, 0⟩, ⟨true, 90⟩], 0⟩).clients[1]? = some ⟨true, 90⟩ :=
  ⟨((claim_C8_heartbeat_timeout 100 ⟨[⟨true, 0⟩, ⟨true, 90⟩], 0⟩ 0 ⟨true, 0⟩
      (by rfl)).1 (by decide)).2.1 rfl (by decide),
   ((claim_C8_heartbeat_timeout 100 ⟨[⟨true, 0⟩, ⟨true, 90⟩], 0⟩ 1 ⟨true, 90⟩
      (by rfl)).1 (by decide)).2.2 (by decide)⟩

/-! ## Stream reassembly (signal_controller.c: extract_complete_frame and
the frame-drain loop of handle_client_message) -/

/-- Scan of the `found_start` loop in C `extract_complete_frame`: the first
index at or after `i` holding a `FRAME_START` byte. -/
def find_frame_start (buffer : List Nat) (i : Nat) : Option Nat :=
  if _h : i < buffer.length then
    if buffer.getD i 0 = FRAME_START then some i
    else find_frame_start buffer (i + 1)
  else none
termination_by buffer.length - i

/-- Scan of the `found_end` loop in C `extract_complete_frame`: starting
at `i` (the C starts at `start_pos + 1`), the first `FRAME_END` byte that
is not immediately preceded by `ESCAPE_CHAR` (the C's defensive
escape-sequence check). -/
def find_frame_end (buffer : List Nat) (i : Nat) : Option Nat :=
  if _h : i < buffer.length then
    if buffer.getD i 0 = FRAME_END ∧ ¬ (0 < i ∧ buffer.getD (i - 1) 0 = ESCAPE_CHAR) then
      some i
    else find_frame_end buffer (i + 1)
  else none
termination_by buffer.length - i

/-- Result of C `extract_complete_frame`: the `int` return value, the
buffer as left behind (the C compacts it in place and updates
`*buffer_len`), and the two out-parameters (0 when not set). -/
structure extract_result where
  ret : Int
  buffer : List Nat
  frame_start : Nat
  frame_len : Nat
deriving DecidableEq, Repr

/-- C `extract_complete_frame`: under 4 bytes there is no complete frame;
with no `FRAME_START` anywhere the buffer is cleared; with a start but no
end the buffer is compacted so the start moves to offset 0; otherwise the
inclusive slice `[s .. e]` is reported as one candidate frame. -/
def extract_complete_frame (buffer : List Nat) : extract_result :=
  if buffer.length < 4 then ⟨0, buffer, 0, 0⟩
  else
    match find_frame_start buffer 0 with
    | none => ⟨0, [], 0, 0⟩
    | some s =>
      match find_frame_end buffer (s + 1) with
      | none => ⟨0, buffer.drop s, 0, 0⟩
      | some e => ⟨1, buffer, s, e - s + 1⟩

theorem find_frame_start_bounds (buffer : List Nat) :
    ∀ (i s : Nat), find_frame_start buffer i = some s → i ≤ s ∧ s < buffer.length := by
  have H : ∀ (n i s : Nat), buffer.length - i ≤ n →
      find_frame_start buffer i = some s → i ≤ s ∧ s < buffer.length := by
    intro n
    induction n with
    | zero =>
      intro i s hle h
      rw [find_frame_start] at h
      rw [dif_neg (by omega)] at h
      cases h
    | succ n ihn =>
      intro i s hle h
      rw [find_frame_start] at h
      by_cases hi : i < buffer.length
      · rw [dif_pos hi] at h
        by_cases hb : buffer.getD i 0 = FRAME_START
        · rw [if_pos hb] at h
          cases h
          exact ⟨le_refl _, hi⟩
        · rw [if_neg hb] at h
          have := ihn (i + 1) s (by omega) h
          omega
      · rw [dif_neg hi] at h
        cases h
  exact fun i s h => H buffer.length i s (by omega) h

theorem find_frame_end_bounds (buffer : List Nat) :
    ∀ (i e : Nat), find_frame_end buffer i = some e → i ≤ e ∧ e < buffer.length := by
  have H : ∀ (n i e : Nat), buffer.length - i ≤ n →
      find_frame_end buffer i = some e → i ≤ e ∧ e < buffer.length := by
    intro n
    induction n with
    | zero =>
      intro i e hle h
      rw [find_frame_end] at h
      rw [dif_neg (by omega)] at h
      cases h
    | succ n ihn =>
      intro i e hle h
      rw [find_frame_end] at h
      by_cases hi : i < buffer.length
      · rw [dif_pos hi] at h
        by_cases hb : buffer.getD i 0 = FRAME_END ∧
            ¬ (0 < i ∧ buffer.getD (i - 1) 0 = ESCAPE_CHAR)
        · rw [if_pos hb] at h
          cases h
          exact ⟨le_refl _, hi⟩
        · rw [if_neg hb] at h
          have := ihn (i + 1) e (by omega) h
          omega
      · rw [dif_neg hi] at h
        cases h
  exact fun i e h => H buffer.length i e (by omega) h

theorem extract_ret_one (buffer : List Nat) :
    (extract_complete_frame buffer).ret = 1 →
    (extract_complete_frame buffer).buffer = buffer ∧
    2 ≤ (extract_complete_frame buffer).frame_len ∧
    (extract_complete_frame buffer).frame_start +
      (extract_complete_frame buffer).frame_len ≤ buffer.length := by
  unfold extract_complete_frame
  by_cases h4 : buffer.length < 4
  · rw [if_pos h4]
    intro h
    simp at h
  · rw [if_neg h4]
    cases hs : find_frame_start buffer 0 with
    | none =>
      intro h
      simp at h
    | some s =>
      dsimp only
      cases he : find_frame_end buffer (s + 1) with
      | none =>
        intro h
        simp at h
      | some e =>
        intro _
        obtain ⟨hse, helt⟩ := find_frame_end_bounds buffer (s + 1) e he
        dsimp only
        refine ⟨rfl, ?_, ?_⟩ <;> omega

set_option linter.unusedVariables false in
/-- Drain loop of C `handle_client_message`: repeatedly extract a complete
frame, hand the slice `[frame_start .. frame_start+frame_len)` to the frame
processor (here: collect it), and remove everything up to the end of the
frame from the buffer; stop when `extract_complete_frame` reports no
complete frame, leaving the (possibly compacted) buffer for the next read. -/
def process_frames (buffer : List Nat) : List (List Nat) × List Nat :=
  if _h0 : buffer.length = 0 then ([], buffer)
  else
    if h1 : (extract_complete_frame buffer).ret = 1 then
      -- h1 feeds the decreasing_by proof below
      let r := extract_complete_frame buffer
      let fr := (r.buffer.drop r.frame_start).take r.frame_len
      let pr := process_frames (r.buffer.drop (r.frame_start + r.frame_len))
      (fr :: pr.1, pr.2)
    else ([], (extract_complete_frame buffer).buffer)
termination_by buffer.length
decreasing_by
  obtain ⟨hb, hl2, hle⟩ := extract_ret_one buffer h1
  simp only [hb, List.length_drop]
  omega

/-- One `recv` worth of bytes appended to the per-client buffer, then the
drain loop; iterated over a list of chunks arriving in order. -/
def reassemble (buf : List Nat) : List (List Nat) → List (List Nat) × List Nat
  | [] => ([], buf)
  | c :: cs =>
    let pr := process_frames (buf ++ c)
    let rest := reassemble pr.2 cs
    (pr.1 ++ rest.1, rest.2)

theorem getD_append_left (l1 l2 : List Nat) (j : Nat) (h : j < l1.length) :
    (l1 ++ l2).getD j 0 = l1.getD j 0 := by
  rw [List.getD_eq_getElem?_getD, List.getD_eq_getElem?_getD, List.getElem?_append,
    if_pos h]

theorem frame_delims_eq : FRAME_START = FRAME_END := rfl

theorem find_frame_start_zero (buffer : List Nat) (h0 : buffer.getD 0 0 = FRAME_START)
    (hne : 0 < buffer.length) : find_frame_start buffer 0 = some 0 := by
  rw [find_frame_start, dif_pos hne, if_pos h0]

theorem find_frame_end_scan_none (buffer : List Nat) :
    ∀ (i : Nat), (∀ j, i ≤ j → j < buffer.length → buffer.getD j 0 ≠ FRAME_END) →
    find_frame_end buffer i = none := by
  have H : ∀ (n i : Nat), buffer.length - i ≤ n →
      (∀ j, i ≤ j → j < buffer.length → buffer.getD j 0 ≠ FRAME_END) →
      find_frame_end buffer i = none := by
    intro n
    induction n with
    | zero =>
      intro i hle _
      rw [find_frame_end, dif_neg (by omega)]
    | succ n ihn =>
      intro i hle hno
      rw [find_frame_end]
      by_cases hi : i < buffer.length
      · rw [dif_pos hi]
        rw [if_neg (by rintro ⟨h1, _⟩; exact hno i (le_refl i) hi h1)]
        exact ihn (i + 1) (by omega) (fun j hj hjl => hno j (by omega) hjl)
      · rw [dif_neg hi]
  exact fun i h => H buffer.length i (by omega) h

theorem find_frame_end_scan_hit (buffer : List Nat) (k : Nat)
    (hk : k < buffer.length) (hend : buffer.getD k 0 = FRAME_END)
    (hprev : buffer.getD (k - 1) 0 ≠ ESCAPE_CHAR) :
    ∀ (i : Nat), i ≤ k → (∀ j, i ≤ j → j < k → buffer.getD j 0 ≠ FRAME_END) →
    find_frame_end buffer i = some k := by
  have H : ∀ (n i : Nat), k - i ≤ n → i ≤ k →
      (∀ j, i ≤ j → j < k → buffer.getD j 0 ≠ FRAME_END) →
      find_frame_end buffer i = some k := by
    intro n
    induction n with
    | zero =>
      intro i hle hik _
      have : i = k := by omega
      subst this
      rw [find_frame_end, dif_pos hk, if_pos ⟨hend, by rintro ⟨_, hc⟩; exact hprev hc⟩]
    | succ n ihn =>
      intro i hle hik hno
      by_cases hik2 : i = k
      · subst hik2
        rw [find_frame_end, dif_pos hk, if_pos ⟨hend, by rintro ⟨_, hc⟩; exact hprev hc⟩]
      · rw [find_frame_end, dif_pos (by omega)]
        rw [if_neg (by rintro ⟨h1, _⟩; exact hno i (le_refl i) (by omega) h1)]
        exact ihn (i + 1) (by omega) (by omega) (fun j hj hjl => hno j (by omega) hjl)
  exact fun i hik h => H k i (by omega) hik h

/-- Structural characterization of the wire frames `encode_frame` emits:
a delimiter, a nonempty interior free of delimiter bytes and not ending in
the escape byte, a delimiter. -/
def WireFrame (bs : List Nat) : Prop :=
  ∃ interior, bs = FRAME_START :: (interior ++ [FRAME_END]) ∧ 2 ≤ interior.length ∧
    (∀ j, j < interior.length → interior.getD j 0 ≠ FRAME_END) ∧
    interior.getD (interior.length - 1) 0 ≠ ESCAPE_CHAR

/-- Buffer contents between feeds in a valid stream: empty, or a strict
prefix of a frame — a delimiter followed by delimiter-free bytes. -/
def GoodPartial (p : List Nat) : Prop :=
  p = [] ∨ ∃ q, p = FRAME_START :: q ∧ ∀ j, j < q.length → q.getD j 0 ≠ FRAME_END

theorem extract_pending (p : List Nat) (hp : GoodPartial p) :
    extract_complete_frame p = ⟨0, p, 0, 0⟩ := by
  rcases hp with rfl | ⟨q, rfl, hq⟩
  · rw [extract_complete_frame, if_pos (by simp)]
  · by_cases h4 : (FRAME_START :: q).length < 4
    · rw [extract_complete_frame, if_pos h4]
    · rw [extract_complete_frame, if_neg h4]
      rw [find_frame_start_zero (FRAME_START :: q) rfl (by simp)]
      dsimp only
      rw [find_frame_end_scan_none (FRAME_START :: q) (0 + 1) ?noend]
      case noend =>
        intro j h1 hlen
        obtain ⟨j2, rfl⟩ : ∃ j2, j = j2 + 1 := ⟨j - 1, by omega⟩
        rw [List.getD_cons_succ]
        exact hq j2 (by simp at hlen; omega)
      simp

theorem extract_frame (f rest : List Nat) (hf : WireFrame f) :
    extract_complete_frame (f ++ rest) = ⟨1, f ++ rest, 0, f.length⟩ := by
  obtain ⟨int, rfl, h2, hnone, hlastne⟩ := hf
  have hblen : ((FRAME_START :: (int ++ [FRAME_END])) ++ rest).length =
      int.length + 2 + rest.length := by
    simp
    omega
  have h4 : ¬ ((FRAME_START :: (int ++ [FRAME_END])) ++ rest).length < 4 := by
    omega
  have hb0 : ((FRAME_START :: (int ++ [FRAME_END])) ++ rest).getD 0 0 = FRAME_START := rfl
  have hmid : ∀ j, 1 ≤ j → j ≤ int.length →
      ((FRAME_START :: (int ++ [FRAME_END])) ++ rest).getD j 0 = int.getD (j - 1) 0 := by
    intro j h1 hle
    obtain ⟨j2, rfl⟩ : ∃ j2, j = j2 + 1 := ⟨j - 1, by omega⟩
    rw [List.cons_append, List.getD_cons_succ]
    rw [getD_append_left _ _ _ (by simp; omega)]
    rw [getD_append_left _ _ _ (by omega)]
    simp
  have hend : ((FRAME_START :: (int ++ [FRAME_END])) ++ rest).getD (int.length + 1) 0 =
      FRAME_END := by
    rw [List.cons_append, List.getD_cons_succ]
    rw [getD_append_left _ _ _ (by simp)]
    rw [List.getD_eq_getElem?_getD, List.getElem?_concat_length]
    rfl
  have hprev : ((FRAME_START :: (int ++ [FRAME_END])) ++ rest).getD (int.length + 1 - 1) 0 ≠
      ESCAPE_CHAR := by
    have he : int.length + 1 - 1 = (int.length - 1) + 1 := by omega
    rw [he, List.cons_append, List.getD_cons_succ]
    rw [getD_append_left _ _ _ (by simp; omega)]
    rw [getD_append_left _ _ _ (by omega)]
    exact hlastne
  rw [extract_complete_frame, if_neg h4, find_frame_start_zero _ hb0 (by omega)]
  dsimp only
  rw [find_frame_end_scan_hit _ (int.length + 1) (by omega) hend hprev (0 + 1)
    (by omega) ?nomid]
  case nomid =>
    intro j h1 hlt
    rw [hmid j (by omega) (by omega)]
    exact hnone (j - 1) (by omega)
  dsimp only
  simp only [extract_result.mk.injEq]
  refine ⟨trivial, trivial, trivial, ?_⟩
  simp

/-- The drain loop consumes a buffer holding complete frames followed by a
partial one: it emits exactly the complete frames, in order, byte for byte,
and leaves the partial bytes in place. -/
theorem process_frames_drain (fs : List (List Nat)) :
    ∀ (p : List Nat), (∀ f ∈ fs, WireFrame f) → GoodPartial p →
    process_frames (fs.flatten ++ p) = (fs, p) := by
  induction fs with
  | nil =>
    intro p _ hp
    simp only [List.flatten_nil, List.nil_append]
    rcases Nat.eq_zero_or_pos p.length with hz | hpos
    · rw [process_frames, dif_pos hz]
    · rw [process_frames, dif_neg (by omega)]
      rw [extract_pending p hp]
      simp
  | cons f t ih =>
    intro p hwf hp
    have hflat : (f :: t).flatten ++ p = f ++ (t.flatten ++ p) := by
      simp
    have hwff := hwf f (by simp)
    have hext := extract_frame f (t.flatten ++ p) hwff
    obtain ⟨int, hfi, h2, _, _⟩ := hwff
    have hfne : f.length ≠ 0 := by
      rw [hfi]
      simp
    have hne0 : ¬ (f ++ (t.flatten ++ p)).length = 0 := by
      simp [hfi]
    rw [hflat, process_frames, dif_neg hne0]
    rw [hext]
    rw [dif_pos rfl]
    have hwft : ∀ g ∈ t, WireFrame g := fun g hg => hwf g (by simp [hg])
    simp only [List.drop_zero, Nat.zero_add, List.take_left, List.drop_left]
    rw [ih p hwft hp]

/-- A byte list standing in a frame stream: empty, or a proper prefix of
the first of the remaining frames. -/
def PartialFor (p : List Nat) (fs : List (List Nat)) : Prop :=
  p = [] ∨ ∃ f t k, fs = f :: t ∧ k < f.length ∧ p = f.take k

/-- Any prefix of a concatenation of frames splits into whole leading
frames plus a residue that is empty or a proper prefix of the next frame. -/
theorem stream_split (fs : List (List Nat)) :
    ∀ (q r : List Nat), q ++ r = fs.flatten →
    ∃ fs1 fs2 p, fs = fs1 ++ fs2 ∧ q = fs1.flatten ++ p ∧ PartialFor p fs2 := by
  induction fs with
  | nil =>
    intro q r hqr
    simp only [List.flatten_nil] at hqr
    obtain ⟨hq, _⟩ := List.append_eq_nil.mp hqr
    exact ⟨[], [], [], rfl, by simp [hq], Or.inl rfl⟩
  | cons f t ih =>
    intro q r hqr
    by_cases hlen : q.length < f.length
    · refine ⟨[], f :: t, q, rfl, by simp, Or.inr ⟨f, t, q.length, rfl, hlen, ?_⟩⟩
      have h1 : q = (q ++ r).take q.length := (List.take_left q r).symm
      rw [hqr, List.flatten_cons, List.take_append_of_le_length (by omega)] at h1
      exact h1
    · push_neg at hlen
      have htake : q.take f.length = f := by
        have h1 : (q ++ r).take f.length = q.take f.length :=
          List.take_append_of_le_length hlen
        rw [hqr, List.flatten_cons, List.take_left] at h1
        exact h1.symm
      have hq2 : q = f ++ q.drop f.length := by
        conv_lhs => rw [← List.take_append_drop f.length q]
        rw [htake]
      have hstream : q.drop f.length ++ r = t.flatten := by
        have hx : f ++ (q.drop f.length ++ r) = f ++ t.flatten := by
          rw [← List.append_assoc, ← hq2, hqr, List.flatten_cons]
        exact List.append_cancel_left hx
      obtain ⟨fs1, fs2, p, hfs, hsp, hpf⟩ := ih (q.drop f.length) r hstream
      refine ⟨f :: fs1, fs2, p, by rw [hfs, List.cons_append], ?_, hpf⟩
      rw [List.flatten_cons, List.append_assoc, ← hsp]
      exact hq2

/-- The residue left by `stream_split` satisfies the invariant the drain
loop preserves. -/
theorem partial_good (p : List Nat) (fs : List (List Nat))
    (hp : PartialFor p fs) (hwf : ∀ f ∈ fs, WireFrame f) : GoodPartial p := by
  rcases hp with rfl | ⟨f, t, k, rfl, hk, rfl⟩
  · exact Or.inl rfl
  · obtain ⟨int, hfi, h2, hnone, _⟩ := hwf f (by simp)
    rcases Nat.eq_zero_or_pos k with rfl | hkpos
    · exact Or.inl (by simp)
    · right
      obtain ⟨k2, rfl⟩ : ∃ k2, k = k2 + 1 := ⟨k - 1, by omega⟩
      subst hfi
      refine ⟨(int ++ [FRAME_END]).take k2, by rw [List.take_succ_cons], ?_⟩
      intro j hj
      have hk2 : k2 ≤ int.length := by
        simp at hk
        omega
      have hjk : j < k2 := by
        simp at hj
        omega
      have hjint : j < int.length := by omega
      have hval : ((int ++ [FRAME_END]).take k2).getD j 0 = int.getD j 0 := by
        rw [List.getD_eq_getElem?_getD, List.getElem?_take, if_pos hjk,
          List.getElem?_append, if_pos hjint, ← List.getD_eq_getElem?_getD]
      rw [hval]
      exact hnone j hjint

/-- Feeding any chunking of a stream of complete frames (on top of a
pending prefix consistent with it) emits exactly those frames and ends
with an empty buffer. -/
theorem reassemble_exact (chunks : List (List Nat)) :
    ∀ (fs : List (List Nat)) (p : List Nat),
    (∀ f ∈ fs, WireFrame f) → PartialFor p fs →
    p ++ chunks.flatten = fs.flatten →
    reassemble p chunks = (fs, []) := by
  induction chunks with
  | nil =>
    intro fs p hwf hpf heq
    simp only [List.flatten_nil, List.append_nil] at heq
    rcases hpf with rfl | ⟨f, t, k, rfl, hk, rfl⟩
    · have hfs : fs = [] := by
        cases fs with
        | nil => rfl
        | cons f t =>
          obtain ⟨int, hfi, _, _, _⟩ := hwf f (by simp)
          exfalso
          have hfne : f ≠ [] := by
            rw [hfi]
            simp
          exact hfne ((List.flatten_eq_nil_iff.mp heq.symm) f (by simp))
      subst hfs
      rfl
    · exfalso
      have hlen := congrArg List.length heq
      simp [List.flatten_cons] at hlen
      omega
  | cons c cs ih =>
    intro fs p hwf hpf heq
    have hq : (p ++ c) ++ cs.flatten = fs.flatten := by
      calc (p ++ c) ++ cs.flatten = p ++ (c ++ cs.flatten) := List.append_assoc p c _
        _ = p ++ (c :: cs).flatten := by rw [List.flatten_cons]
        _ = fs.flatten := heq
    obtain ⟨fs1, fs2, p2, hfs, hsp, hpf2⟩ := stream_split fs (p ++ c) cs.flatten hq
    have hwf1 : ∀ g ∈ fs1, WireFrame g := fun g hg => hwf g (by rw [hfs]; simp [hg])
    have hwf2 : ∀ g ∈ fs2, WireFrame g := fun g hg => hwf g (by rw [hfs]; simp [hg])
    have hgood : GoodPartial p2 := partial_good p2 fs2 hpf2 hwf2
    have hdrain : process_frames (p ++ c) = (fs1, p2) := by
      rw [hsp]
      exact process_frames_drain fs1 p2 hwf1 hgood
    have hrest : p2 ++ cs.flatten = fs2.flatten := by
      have hx : fs1.flatten ++ (p2 ++ cs.flatten) = fs1.flatten ++ fs2.flatten := by
        rw [← List.append_assoc, ← hsp, hq, hfs, List.flatten_append]
      exact List.append_cancel_left hx
    simp only [reassemble]
    rw [hdrain, ih fs2 p2 hwf2 hpf2 hrest]
    simp [hfs]

/-- The frames `encode_frame` emits satisfy the structural wire-frame
predicate: delimiters at both ends, a delimiter-free interior of at least
two bytes, and no dangling escape byte before the closing delimiter. -/
theorem encode_wire_frame (f : protocol_frame_t) (cap : Nat) (bs : List Nat)
    (h : encode_frame f cap = some bs) : WireFrame bs := by
  have hcap : ¬ cap < 20 := by
    intro hc
    simp [encode_frame, hc] at h
  obtain ⟨dt, hbd⟩ : ∃ dt, build_data_table f.data = some dt := by
    cases hb2 : build_data_table f.data with
    | none => simp [encode_frame, hb2, hcap] at h
    | some dt => exact ⟨dt, rfl⟩
  simp only [encode_frame, hbd, hcap, if_false] at h
  set crcv := calculate_crc16 dt with hcrcv
  set dt2 := dt ++ [crcv % 256, crcv / 256 % 256] with hdt2
  obtain ⟨esc, hesc⟩ : ∃ esc, escape_data dt2 MAX_FRAME_SIZE = some esc := by
    cases he2 : escape_data dt2 MAX_FRAME_SIZE with
    | none => rw [he2] at h; cases h
    | some esc => exact ⟨esc, rfl⟩
  simp only [hesc] at h
  have hbs : bs = FRAME_START :: esc ++ [FRAME_END] := by
    by_cases hover : 1 + esc.length ≥ cap
    · rw [if_pos hover] at h
      cases h
    · rw [if_neg hover] at h
      cases h
      rfl
  have hdt2ne : dt2 ≠ [] := by
    simp [hdt2]
  have hesc2 : escapeLoop dt2 0 MAX_FRAME_SIZE = some esc := by
    rw [escape_data, if_neg hdt2ne] at hesc
    exact hesc
  obtain ⟨hlen_le, _, hmem, hlast⟩ := escapeLoop_sound dt2 0 MAX_FRAME_SIZE esc hesc2
  have h2 : 2 ≤ esc.length := by
    have hd2 : 2 ≤ dt2.length := by
      simp [hdt2]
    omega
  refine ⟨esc, by rw [hbs, List.cons_append], h2, ?_, ?_⟩
  · intro j hj hc
    have hmem2 : esc.getD j 0 ∈ esc := by
      rw [List.getD_eq_getElem esc 0 hj]
      exact List.getElem_mem hj
    rw [hc] at hmem2
    exact hmem (by rw [frame_delims_eq]; exact hmem2)
  · intro hc
    apply hlast
    have hlt : esc.length - 1 < esc.length := by omega
    rw [List.getLast?_eq_getElem?, List.getElem?_eq_getElem hlt]
    rw [← List.getD_eq_getElem esc 0 hlt, hc]

/-- C2: for every sequence of valid encoded wire frames concatenated into
one byte stream, and every partition of that stream into chunks fed
sequentially through the append-and-drain loop, the reassembler emits
exactly those frames, each byte-identical to the original and in the
original order, finishing with an empty buffer. -/
theorem claim_C2_reassembly (frames chunks : List (List Nat))
    (hf : ∀ bs ∈ frames, ∃ f cap, encode_frame f cap = some bs)
    (hc : chunks.flatten = frames.flatten) :
    reassemble [] chunks = (frames, []) := by
  apply reassemble_exact chunks frames []
  · intro bs hbs
    obtain ⟨f, cap, he⟩ := hf bs hbs
    exact encode_wire_frame f cap bs he
  · exact Or.inl rfl
  · simpa using hc

/-- C2 witness: two concrete encoded frames, fed as three chunks whose
boundaries fall inside the frames, are reassembled exactly. -/
theorem claim_C2_witness :
    (∀ bs ∈ [hsBytes, c3Bytes], ∃ f cap, encode_frame f cap = some bs) ∧
    ([hsBytes.take 10, hsBytes.drop 10 ++ c3Bytes.take 5, c3Bytes.drop 5].flatten =
      [hsBytes, c3Bytes].flatten) ∧
    reassemble [] [hsBytes.take 10, hsBytes.drop 10 ++ c3Bytes.take 5, c3Bytes.drop 5] =
      ([hsBytes, c3Bytes], []) := by
  have h1 : ∀ bs ∈ [hsBytes, c3Bytes], ∃ f cap, encode_frame f cap = some bs := by
    intro bs hbs
    simp only [List.mem_cons, List.not_mem_nil, or_false] at hbs
    rcases hbs with rfl | rfl
    · exact ⟨hsFrame, 2048, by decide⟩
    · exact ⟨c3Frame, 2048, by decide⟩
  exact ⟨h1, by decide,
    claim_C2_reassembly [hsBytes, c3Bytes]
      [hsBytes.take 10, hsBytes.drop 10 ++ c3Bytes.take 5, c3Bytes.drop 5] h1 (by decide)⟩

end TrafficProtocol
